import Mathlib

/-!
Shallow embedding of `nautobot_netbox_importer/diffsync/adapters/netbox.py`
(class `NetBox210DiffSync`): the record loader (`load_record`), the drift
tracker (`_get_ignored_fields`, `_log_ignored_fields_details`,
`_log_ignored_fields_info`, `_log_ignored_fields`) and the orchestrator
(`load`).

Collaborators defined elsewhere in the repository (the identifier deriver
`netbox_pk_to_nautobot_pk`, the abstract adapter's `make_model` and
`get_by_pk`, the per-model registry data) are modelled from the spec; each
such definition carries a doc comment saying so.
-/

set_option autoImplicit false

namespace NetboxImporter

/-- Python values as they occur in a NetBox JSON dump plus the two opaque
value shapes produced during resolution: `derived` stands for the output of
the identifier deriver, `uuid` for a fresh `uuid4()` value.  Python `bool`
is kept distinct from `int`; boolean-valued foreign-key fields do not occur
in the source data model (spec section 3: FK values are null, integers, or
sequences of integers). -/
inductive Value where
  | null
  | int (n : Int)
  | str (s : String)
  | bool (b : Bool)
  | list (vs : List Value)
  | obj (kvs : List (String × Value))
  | derived (name : String) (pk : Value)
  | uuid (n : Nat)

/-- Python truthiness (`bool(v)`) for the value shapes above. -/
def truthy : Value → Bool
  | .null => false
  | .int n => n != 0
  | .str s => !s.data.isEmpty
  | .bool b => b
  | .list vs => !vs.isEmpty
  | .obj kvs => !kvs.isEmpty
  | .derived _ _ => true
  | .uuid _ => true

/-- Python `isinstance(v, int)` restricted to the source data model (see `Value`). -/
def Value.isInt : Value → Bool
  | .int _ => true
  | _ => false

/-- Python `isinstance(v, list)`. -/
def Value.isList : Value → Bool
  | .list _ => true
  | _ => false

/-- Python `str.startswith`, via the underlying character list so that it
evaluates by kernel reduction. -/
def strStartsWith (s p : String) : Bool :=
  p.data.isPrefixOf s.data

/-- Python slicing `s[n:]`. -/
def strDrop (s : String) (n : Nat) : String :=
  ⟨s.data.drop n⟩

/-- A Python `dict` with string keys, in insertion order. -/
def Fields := List (String × Value)

instance : Membership (String × Value) Fields := inferInstanceAs (Membership _ (List _))

/-- Dict lookup `d[k]` as an optional lookup (first binding wins; dict keys are unique). -/
def Fields.get? (fs : Fields) (k : String) : Option Value :=
  (List.find? (fun kv => kv.1 == k) fs).map (·.2)

/-- Dict assignment `d[k] = v`: replace the existing binding in place, or append a new one
(Python dicts preserve insertion order). -/
def Fields.set : Fields → String → Value → Fields
  | [], k, v => [(k, v)]
  | (k', v') :: rest, k, v =>
    if k' == k then (k, v) :: rest else (k', v') :: Fields.set rest k v

/-- Dict deletion `del d[k]` (dict keys are unique, so removing every binding of `k`
agrees with removing the one binding). -/
def Fields.erase : Fields → String → Fields
  | [], _ => []
  | (k', v') :: rest, k =>
    if k' == k then Fields.erase rest k else (k', v') :: Fields.erase rest k

/-- Keys of the mapping. -/
def Fields.keys (fs : Fields) : List String :=
  fs.map (·.1)

theorem Fields.get?_set_self (fs : Fields) (k : String) (v : Value) :
    (fs.set k v).get? k = some v := by
  induction fs with
  | nil => simp [Fields.set, Fields.get?]
  | cons kv rest ih =>
    obtain ⟨k', v'⟩ := kv
    by_cases h : k' = k
    · simp [Fields.set, Fields.get?, h]
    · simp only [Fields.set, beq_iff_eq, h, if_false]
      simpa [Fields.get?, h] using ih

theorem Fields.get?_set_ne (fs : Fields) (k k' : String) (v : Value) (h : k' ≠ k) :
    (fs.set k' v).get? k = fs.get? k := by
  induction fs with
  | nil => simp [Fields.set, Fields.get?, h]
  | cons kv rest ih =>
    obtain ⟨k₀, v₀⟩ := kv
    by_cases h₀ : k₀ = k'
    · simp [Fields.set, Fields.get?, h₀, h]
    · simp only [Fields.set, beq_iff_eq, h₀, if_false]
      by_cases hk : k₀ = k
      · simp [Fields.get?, hk]
      · simpa [Fields.get?, hk] using ih

theorem Fields.get?_erase_self (fs : Fields) (k : String) :
    (fs.erase k).get? k = none := by
  induction fs with
  | nil => simp [Fields.erase, Fields.get?]
  | cons kv rest ih =>
    obtain ⟨k₀, v₀⟩ := kv
    by_cases h : k₀ = k
    · simpa [Fields.erase, h] using ih
    · simpa [Fields.erase, Fields.get?, h] using ih

theorem Fields.get?_erase_ne (fs : Fields) (k k' : String) (h : k' ≠ k) :
    (fs.erase k').get? k = fs.get? k := by
  induction fs with
  | nil => simp [Fields.erase]
  | cons kv rest ih =>
    obtain ⟨k₀, v₀⟩ := kv
    by_cases h₀ : k₀ = k'
    · have hk : k₀ ≠ k := by rw [h₀]; exact h
      rw [show Fields.get? ((k₀, v₀) :: rest) k = Fields.get? rest k by
        simp [Fields.get?, hk]]
      simpa [Fields.erase, h₀] using ih
    · by_cases hk : k₀ = k
      · subst hk
        simp [Fields.erase, Fields.get?, h₀]
      · simp only [Fields.erase, beq_iff_eq, h₀, if_false]
        rw [show Fields.get? ((k₀, v₀) :: rest) k = Fields.get? rest k by
          simp [Fields.get?, hk]]
        rw [show Fields.get? ((k₀, v₀) :: Fields.erase rest k') k
              = Fields.get? (Fields.erase rest k') k by
          simp [Fields.get?, hk]]
        exact ih

/-- One record of the NetBox JSON dump: `{"model": ..., "pk": ..., "fields": {...}}`. -/
structure Record where
  model : String
  pk : Int
  fields : Fields

/-- Log severities of the structured logger. -/
inductive Severity where
  | debug
  | info
  | warning
  | error

/-- The log lines `NetBox210DiffSync` emits, with the structured data each
carries (message formatting elided; the data determines the message). -/
inductive LogEntry where
  /-- The `logger.debug` line of `_log_ignored_fields_details`: NetBox field not
  defined for DiffSync Model. -/
  | debugIgnored (modelName : String) (ignoredFields : List String)
  /-- The `logger.warning` line of `_log_ignored_fields_info`: fields defined in
  NetBox but unsupported by the importer; `fields` is the list actually interpolated. -/
  | warnIgnored (modelName : String) (fields : List String)
  /-- The `logger.error` line for an invalid content-type PK value. -/
  | errorInvalidContentTypePk (v : Value)
  /-- The `logger.warning` line for an unknown/unrecognized class name. -/
  | warnUnknownClass (name : String)
  /-- The `logger.error` line for an invalid PK value. -/
  | errorInvalidPk (v : Value)
  /-- The `logger.debug` line emitted while looking for the UserConfig of a User. -/
  | debugLookingUserConfig (username : Value)
  /-- The `logger.warning` line emitted when no UserConfig exists for a User. -/
  | warnNoUserConfig (username : Value) (pk : Int)
  /-- The `logger.info` banner lines of `load`. -/
  | infoMsg (msg : String)

/-- Severity of each log line. -/
def LogEntry.sev : LogEntry → Severity
  | .debugIgnored _ _ => .debug
  | .warnIgnored _ _ => .warning
  | .errorInvalidContentTypePk _ => .error
  | .warnUnknownClass _ => .warning
  | .errorInvalidPk _ => .error
  | .debugLookingUserConfig _ => .debug
  | .warnNoUserConfig _ _ => .warning
  | .infoMsg _ => .info

/-- Modelled from the spec: the Identifier Deriver
(`netbox_pk_to_nautobot_pk` in `diffsync/models/validation.py`, not under
`src/`): a deterministic pure function of the target type name and the
source surrogate key; its output is opaque here, so it is represented by
the `Value.derived` constructor, whose injectivity models determinism and
collision resistance. -/
def netbox_pk_to_nautobot_pk (name : String) (pk : Value) : Value :=
  .derived name pk

/-- Modelled from the spec: what the in-memory index (`get_by_pk` on the
abstract adapter, not under `src/`) holds for one previously-loaded record:
its `model_flags & DiffSyncModelFlags.IGNORE` bit, its natural-key
descriptor `get_identifiers()`, and (for content-type records) its `model`
attribute naming the referenced entity type. -/
structure IndexEntry where
  ignore : Bool
  identifiers : Value
  model : String

/-- Modelled from the spec: the per-entity-type metadata of the Target
Model Registry (the DiffSync model classes, not under `src/`): the
attribute name on the adapter, whether the class is a `NautobotBaseModel`
subclass ("owned") or a pass-through base model, its `fk_associations()`
mapping, its Nautobot content-type label, and the recognized field names /
aliases / intentionally-ignored fields used by drift detection. -/
structure ModelDescriptor where
  name : String
  owned : Bool
  fkAssociations : List (String × String)
  label : String
  recognizedFields : List String
  aliases : List String
  ignoredFields : List String

/-- The adapter's static collaborators: the registry of model classes
(`getattr(self, name)`) and the in-memory index (`get_by_pk(name, pk)`,
keyed by entity-type name and raw surrogate-key value), plus the declared
`top_level` ordering. -/
structure Adapter where
  models : List ModelDescriptor
  index : String → Value → Option IndexEntry
  topLevel : List String

/-- Python `getattr(self, target_name)`: find the model class by attribute name;
`none` is Python's `AttributeError`. -/
def lookupModel (ad : Adapter) (name : String) : Option ModelDescriptor :=
  ad.models.find? (fun m => m.name == name)

/-- The mutable state of `load_record` while one record is processed:
the (read-only) source record, the working copy `data`, the log lines
emitted so far, the companion records synthesized via `make_model`
(custom-field choices), and the fresh-uuid counter modelling `uuid4()`. -/
structure LS where
  record : Record
  data : Fields
  logs : List LogEntry
  synthesized : List Fields
  fresh : Nat

/-- The list comprehension over `get_by_pk` of line 193; a
missing entry is the lookup exception aborting the record. -/
def lookupAll (ad : Adapter) (targetName : String) : List Value → Option (List IndexEntry)
  | [] => some []
  | pk :: rest =>
    match ad.index targetName pk with
    | none => none
    | some e =>
      match lookupAll ad targetName rest with
      | none => none
      | some es => some (e :: es)

/-- Lines 174-211 of `load_record`: resolve one FK field once the concrete
target type name is known (shared by the static and the generic paths). -/
def fkResolve (ad : Adapter) (ls : LS) (key : String) (v : Value)
    (targetName : String) : Option LS :=
  match lookupModel ad targetName with
  | none =>
    -- `except AttributeError`: log a warning, null the field, continue.
    some { ls with logs := ls.logs ++ [.warnUnknownClass targetName],
                   data := ls.data.set key .null }
  | some targetClass =>
    match v with
    | .list elems =>
      if targetClass.owned then
        let resolved := Value.list (elems.map (fun pk => netbox_pk_to_nautobot_pk targetName pk))
        some { ls with data := ls.data.set key resolved }
      else
        match lookupAll ad targetName elems with
        | none => none
        | some refs =>
          let resolved := Value.list ((refs.filter (fun e => !e.ignore)).map (·.identifiers))
          some { ls with data := ls.data.set key resolved }
    | .int n =>
      if targetClass.owned then
        some { ls with data := ls.data.set key (netbox_pk_to_nautobot_pk targetName (.int n)) }
      else
        match ad.index targetName (.int n) with
        | none => none
        | some e =>
          if e.ignore then some { ls with data := ls.data.set key .null }
          else some { ls with data := ls.data.set key e.identifiers }
    | _ =>
      some { ls with logs := ls.logs ++ [.errorInvalidPk v],
                     data := ls.data.set key .null }

/-- One iteration of the FK-fixup loop of `load_record` (lines 149-211)
for one `(key, target_name)` entry of `fk_associations()`. -/
def fkStep (ad : Adapter) (ls : LS) (assoc : String × String) : Option LS :=
  match ls.data.get? assoc.1 with
  | none => some ls
  | some v =>
    if truthy v = false then
      -- `if key not in data or not data[key]: continue`
      some ls
    else if assoc.2 == "status" then
      some { ls with data := ls.data.set assoc.1 (.obj [("slug", v)]) }
    else if strStartsWith assoc.2 "*" then
      -- generic FK: read the discriminator field from the original record
      match ls.record.fields.get? (strDrop assoc.2 1) with
      | none => none
      | some w =>
        match w with
        | .int ct =>
          match ad.index "contenttype" (.int ct) with
          | none => none
          | some e => fkResolve ad ls assoc.1 v e.model
        | _ =>
          some { ls with logs := ls.logs ++ [.errorInvalidContentTypePk w],
                         data := ls.data.set assoc.1 .null }
    else
      fkResolve ad ls assoc.1 v assoc.2

/-- The whole `for key, target_name in diffsync_model.fk_associations().items()`
loop. -/
def fkLoop (ad : Adapter) : LS → List (String × String) → Option LS
  | ls, [] => some ls
  | ls, assoc :: rest =>
    match fkStep ad ls assoc with
    | none => none
    | some ls' => fkLoop ad ls' rest

/-- Modelled from the spec: the relevant surface of a constructed DiffSync
model instance (`NautobotBaseModel`, not under `src/`): its `_modelname`,
its pydantic `__fields_set__`, the declared field aliases, and the
`ignored_fields` the model marks as intentionally ignorable. -/
structure Instance where
  modelname : String
  fieldsSet : List String
  fieldAliases : List String
  ignoredFields : List String

/-- Modelled from the spec: `make_model` of the abstract adapter (not under
`src/`) constructs the target-shaped instance from the fixed-up mapping and
registers it in the index; the instance's `__fields_set__` is the set of
supplied keys that the target schema recognizes, and the aliases and
intentionally-ignored fields come from the model class. -/
def make_model (m : ModelDescriptor) (data : Fields) : Instance :=
  { modelname := m.name
    fieldsSet := (data.keys).filter (fun k => m.recognizedFields.contains k)
    fieldAliases := m.aliases
    ignoredFields := m.ignoredFields }

/-- Method `_get_ignored_fields` (lines 35-54): NetBox fields with truthy values,
excluding `_`-prefixed internals, minus the instance's set fields, the
declared aliases and the intentionally-ignored fields. -/
def get_ignored_fields (netbox_data : Fields) (inst : Instance) : List String :=
  ((netbox_data.filter (fun kv => truthy kv.2 && !(strStartsWith kv.1 "_"))).map (·.1)).filter
    (fun k => !(inst.fieldsSet.contains k) && !(inst.fieldAliases.contains k)
      && !(inst.ignoredFields.contains k))

/-- The class attribute `_unsupported_fields`: model name → field names
already reported. -/
def UnsupportedMap := List (String × List String)

/-- Lookup `self.unsupported_fields[model_name]` as an optional lookup. -/
def usLookup? (us : UnsupportedMap) (m : String) : Option (List String) :=
  (List.find? (fun kv => kv.1 == m) us).map (·.2)

/-- Lookup `self.unsupported_fields[model_name]` with the empty set as default
(used only to state monotonicity). -/
def usLookupD (us : UnsupportedMap) (m : String) : List String :=
  (usLookup? us m).getD []

/-- Store a binding in `_unsupported_fields`. -/
def usSet : UnsupportedMap → String → List String → UnsupportedMap
  | [], m, fs => [(m, fs)]
  | (m', fs') :: rest, m, fs =>
    if m' == m then (m, fs) :: rest else (m', fs') :: usSet rest m fs

/-- Method `_log_ignored_fields_info` (lines 88-122): warn once per newly seen
(model, field) combination and record the fields. -/
def log_ignored_fields_info (us : UnsupportedMap) (modelName : String)
    (ignored : List String) : UnsupportedMap × List LogEntry :=
  match usLookup? us modelName with
  | none =>
    (usSet us modelName ignored, [.warnIgnored modelName ignored])
  | some prev =>
    if (ignored.filter (fun f => !prev.contains f)).isEmpty then (us, [])
    else (usSet us modelName (prev ++ ignored.filter (fun f => !prev.contains f)),
          [.warnIgnored modelName (ignored.filter (fun f => !prev.contains f))])

/-- Method `_log_ignored_fields` (lines 124-140): compute the ignored fields; if
non-empty, emit the per-instance debug entry and escalate through
`_log_ignored_fields_info`. -/
def log_ignored_fields (us : UnsupportedMap) (data : Fields) (inst : Instance) :
    UnsupportedMap × List LogEntry :=
  if (get_ignored_fields data inst).isEmpty then (us, [])
  else
    ((log_ignored_fields_info us inst.modelname (get_ignored_fields data inst)).1,
     LogEntry.debugIgnored inst.modelname (get_ignored_fields data inst)
       :: (log_ignored_fields_info us inst.modelname (get_ignored_fields data inst)).2)

/-- The `for other_record in self.source_data` search of the user fixup
(lines 217-220): first `users.userconfig` record whose `fields["user"]`
equals the current record's pk.  `none` models the `KeyError` raised when a
scanned userconfig record has no `user` field; `some none` is the loop's
`else` clause (no match). -/
def findUserConfig (pk : Int) : List Record → Option (Option Record)
  | [] => some none
  | r :: rest =>
    if r.model == "users.userconfig" then
      match r.fields.get? "user" with
      | none => none
      | some u =>
        match u with
        | .int m => if m == pk then some (some r) else findUserConfig pk rest
        | _ => findUserConfig pk rest
    else findUserConfig pk rest

/-- The `diffsync_model == self.user` fixup (lines 213-223): merge the
matching UserConfig payload into `config_data`, or attach `{}` with a
warning. -/
def userFixup (source : List Record) (pk : Int) (ls : LS) : Option LS :=
  match ls.data.get? "username" with
  | none => none
  | some uname =>
    let ls := { ls with logs := ls.logs ++ [LogEntry.debugLookingUserConfig uname] }
    match findUserConfig pk source with
    | none => none
    | some (some r) =>
      match r.fields.get? "data" with
      | none => none
      | some payload => some { ls with data := ls.data.set "config_data" payload }
    | some none =>
      some { ls with logs := ls.logs ++ [LogEntry.warnNoUserConfig uname pk],
                     data := ls.data.set "config_data" (.obj []) }

/-- A minimal model of `json.loads` restricted to the shape the custom-field
fixup feeds it: a JSON array of plain strings (no escape sequences).  The
`fuel` argument bounds recursion; it is initialized to the input length,
which always suffices. -/
def parseStringsAux (fuel : Nat) (cs : List Char) : Option (List String × List Char) :=
  match fuel with
  | 0 => none
  | fuel + 1 =>
    match scanString cs with
    | none => none
    | some (s, rest) =>
      match skipSpaces rest with
      | ',' :: rest' =>
        match parseStringsAux fuel (skipSpaces rest') with
        | none => none
        | some (ss, rest'') => some (s :: ss, rest'')
      | ']' :: rest' => some ([s], rest')
      | _ => none
where
  skipSpaces : List Char → List Char
    | c :: rest => if c == ' ' then skipSpaces rest else c :: rest
    | [] => []
  scanString : List Char → Option (String × List Char)
    | '"' :: rest => scanBody rest
    | _ => none
  scanBody : List Char → Option (String × List Char)
    | [] => none
    | c :: rest =>
      if c == '"' then some ("", rest)
      else
        match scanBody rest with
        | none => none
        | some (s, r) => some (⟨c :: s.data⟩, r)

/-- Library call `json.loads` applied to the choices value, for a serialized
array of strings. -/
def parseJsonStringArray (s : String) : Option (List String) :=
  match parseStringsAux.skipSpaces s.data with
  | '[' :: rest =>
    match parseStringsAux.skipSpaces rest with
    | ']' :: rest' =>
      match parseStringsAux.skipSpaces rest' with
      | [] => some []
      | _ => none
    | body =>
      match parseStringsAux s.data.length body with
      | none => none
      | some (ss, rest') =>
        match parseStringsAux.skipSpaces rest' with
        | [] => some ss
        | _ => none
  | _ => none

/-- The `for choice in json.loads(data["choices"])` loop (lines 237-245):
synthesize one `customfieldchoice` record per choice via `make_model`, with
a fresh `uuid4()` pk and a derived back-reference to the parent. -/
def synthChoices (recordPk : Int) : LS → List String → LS
  | ls, [] => ls
  | ls, c :: rest =>
    let choiceRecord : Fields :=
      [("pk", .uuid ls.fresh),
       ("field", netbox_pk_to_nautobot_pk "customfield" (.int recordPk)),
       ("value", .str c)]
    synthChoices recordPk
      { ls with synthesized := ls.synthesized ++ [choiceRecord], fresh := ls.fresh + 1 }
      rest

/-- The `if data["type"] == "select"` half of the custom-field fixup
(lines 231-246), applied after the `required` flag has been shadowed. -/
def customfieldSelectFixup (recordPk : Int) (ls : LS) : Option LS :=
  match ls.data.get? "type" with
  | none => none
  | some ty =>
    match ty with
    | .str tyName =>
      if tyName == "select" then
        match ls.data.get? "choices" with
        | some (.str s) =>
          match parseJsonStringArray s with
          | none => none
          | some cs =>
            some { synthChoices recordPk ls cs with
                   data := (synthChoices recordPk ls cs).data.erase "choices" }
        | _ => none
      else some ls
    | _ => some ls

/-- The `diffsync_model == self.customfield` fixup (lines 224-246): shadow
the `required` flag, and for `type == "select"` split the serialized
choices into synthesized companion records and drop the raw list. -/
def customfieldFixup (recordPk : Int) (ls : LS) : Option LS :=
  match ls.data.get? "required" with
  | none => none
  | some req =>
    customfieldSelectFixup recordPk
      { ls with data := (ls.data.set "actual_required" req).set "required" (.bool false) }

/-- Conversion `int(float(v))` as applied to the `vcpus` value: truncation toward zero
of a plain decimal literal (string or integer); other shapes raise. -/
def pyIntOfFloat (v : Value) : Option Int :=
  match v with
  | .int n => some n
  | .str s =>
    match s.data with
    | '-' :: rest => (parseDecimalTrunc rest).map (fun n => -(n : Int))
    | cs => (parseDecimalTrunc cs).map (fun n => (n : Int))
  | _ => none
where
  parseDigits : List Char → Option Nat
    | [] => some 0
    | c :: rest =>
      if c.isDigit then
        (parseDigits rest).map (fun n => n * 10 + (c.toNat - '0'.toNat))
      else none
  allDigits : List Char → Bool
    | [] => true
    | c :: rest => c.isDigit && allDigits rest
  digitsVal : List Char → Nat
    | [] => 0
    | c :: rest => digitsVal rest * 10 + (c.toNat - '0'.toNat)
  splitInt : List Char → List Char → Option (List Char)
    | acc, [] => some acc.reverse
    | acc, '.' :: rest => if allDigits rest then some acc.reverse else none
    | acc, c :: rest => if c.isDigit then splitInt (c :: acc) rest else none
  parseDecimalTrunc (cs : List Char) : Option Nat :=
    match splitInt [] cs with
    | none => none
    | some intPart => if intPart.isEmpty && cs.isEmpty then none else some (digitsVal intPart.reverse)

/-- The `diffsync_model == self.virtualmachine` fixup (lines 247-251). -/
def vmFixup (ls : LS) : Option LS :=
  match ls.data.get? "vcpus" with
  | none => none
  | some .null => some ls
  | some v =>
      match pyIntOfFloat v with
      | none => none
      | some n => some { ls with data := ls.data.set "vcpus" (.int n) }

/-- The `if diffsync_model == self.user / elif ... customfield / elif ...
virtualmachine` chain (lines 213-251). -/
def fixups (source : List Record) (m : ModelDescriptor) (record : Record)
    (ls : LS) : Option LS :=
  if m.name == "user" then userFixup source record.pk ls
  else if m.name == "customfield" then customfieldFixup record.pk ls
  else if m.name == "virtualmachine" then vmFixup ls
  else some ls

/-- Everything `load_record` produces: the fixed-up mapping handed to
`make_model`, the untouched source record, the log lines, the synthesized
companion records, the constructed instance, the ignored-field set handed
to the drift tracker, the updated drift table and fresh counter. -/
structure LoadOut where
  data : Fields
  record : Record
  logs : List LogEntry
  synthesized : List Fields
  inst : Instance
  ignored : List String
  us : UnsupportedMap
  fresh : Nat

/-- The state `load_record` starts from: `data = record["fields"].copy()`
followed by `data["pk"] = record["pk"]` (lines 144-145). -/
def initLS (record : Record) (fresh : Nat) : LS :=
  { record := record, data := record.fields.set "pk" (.int record.pk),
    logs := [], synthesized := [], fresh := fresh }

/-- Method `load_record` (lines 142-255). -/
def loadRecord (ad : Adapter) (source : List Record) (m : ModelDescriptor)
    (record : Record) (us : UnsupportedMap) (fresh : Nat) : Option LoadOut :=
  match fkLoop ad (initLS record fresh) m.fkAssociations with
  | none => none
  | some ls1 =>
    match fixups source m record ls1 with
    | none => none
    | some ls2 =>
      some { data := ls2.data, record := ls2.record,
             logs := ls2.logs ++ (log_ignored_fields us ls2.data (make_model m ls2.data)).2,
             synthesized := ls2.synthesized, inst := make_model m ls2.data,
             ignored := get_ignored_fields ls2.data (make_model m ls2.data),
             us := (log_ignored_fields us ls2.data (make_model m ls2.data)).1,
             fresh := ls2.fresh }

/-- The adapter state `load` runs over: `self.source_data` (releasable),
the class-level `_unsupported_fields` drift table, the emitted log lines,
the fresh-uuid counter, and a trace of the `(modelname, record)` pairs fed
to `load_record`, in order. -/
structure OrchSt where
  sourceData : Option (List Record)
  us : UnsupportedMap
  logs : List LogEntry
  fresh : Nat
  trace : List (String × Record)

/-- The inner `for record in ProgressBar(records, ...)` loop of `load`. -/
def loadRecords (ad : Adapter) (source : List Record) (m : ModelDescriptor) :
    OrchSt → List Record → Option OrchSt
  | st, [] => some st
  | st, r :: rest =>
    match loadRecord ad source m r st.us st.fresh with
    | none => none
    | some out =>
      loadRecords ad source m
        { st with us := out.us, logs := st.logs ++ out.logs, fresh := out.fresh,
                  trace := st.trace ++ [(m.name, r)] }
        rest

/-- The NetBox-side label used to filter `source_data` for a model: its own
`nautobot_model()._meta.label_lower`, except that Nautobot's `users.user`
records live under `auth.user` in a NetBox export (lines 262-266). -/
def effectiveLabel (m : ModelDescriptor) : String :=
  if m.label == "users.user" then "auth.user" else m.label

/-- The outer `for modelname in ("contenttype", "permission", *self.top_level)`
loop of `load` (lines 260-274). -/
def loadModels (ad : Adapter) : OrchSt → List String → Option OrchSt
  | st, [] => some st
  | st, name :: rest =>
    match lookupModel ad name with
    | none => none
    | some m =>
      match st.sourceData with
      | none => none
      | some source =>
        if (source.filter (fun r => r.model == effectiveLabel m)).isEmpty then
          loadModels ad st rest
        else
          match loadRecords ad source m st
              (source.filter (fun r => r.model == effectiveLabel m)) with
          | none => none
          | some st' => loadModels ad st' rest

/-- Method `load` (lines 257-278): the info banner, the model loop, the completion
banner, and the release of `self.source_data`. -/
def load (ad : Adapter) (st : OrchSt) : Option OrchSt :=
  match loadModels ad
      { st with logs := st.logs ++ [LogEntry.infoMsg "Loading imported NetBox source data into DiffSync..."] }
      ("contenttype" :: "permission" :: ad.topLevel) with
  | none => none
  | some st' =>
    some { st' with
           logs := st'.logs ++ [LogEntry.infoMsg "Data loading from NetBox source data complete."],
           sourceData := none }

/-- The fixed iteration order of `load`. -/
def loadOrder (ad : Adapter) : List String :=
  "contenttype" :: "permission" :: ad.topLevel

/-- The per-type record sequence the spec describes for `load`: for each
entity-type name in order, the source records whose label matches the
type's effective label, paired with the type name. -/
def expectedTrace (ad : Adapter) (source : List Record) : List String → List (String × Record)
  | [] => []
  | n :: rest =>
    (match lookupModel ad n with
     | none => []
     | some m => (source.filter (fun r => r.model == effectiveLabel m)).map (fun r => (n, r)))
    ++ expectedTrace ad source rest

/-! ### Frame lemmas for the FK-fixup loop -/

theorem fkResolve_shape (ad : Adapter) (ls : LS) (key : String) (v : Value)
    (t : String) (ls' : LS) (h : fkResolve ad ls key v t = some ls') :
    ls'.record = ls.record ∧ ls'.synthesized = ls.synthesized ∧ ls'.fresh = ls.fresh ∧
      ∃ w, ls'.data = ls.data.set key w := by
  unfold fkResolve at h
  repeat' split at h
  all_goals first
    | (cases h; exact ⟨rfl, rfl, rfl, _, rfl⟩)
    | cases h

theorem fkStep_shape (ad : Adapter) (ls : LS) (a : String × String) (ls' : LS)
    (h : fkStep ad ls a = some ls') :
    ls'.record = ls.record ∧ ls'.synthesized = ls.synthesized ∧ ls'.fresh = ls.fresh ∧
      (ls'.data = ls.data ∨ ∃ w, ls'.data = ls.data.set a.1 w) := by
  unfold fkStep at h
  repeat' split at h
  all_goals first
    | (cases h; exact ⟨rfl, rfl, rfl, Or.inl rfl⟩)
    | (cases h; exact ⟨rfl, rfl, rfl, Or.inr ⟨_, rfl⟩⟩)
    | cases h
    | (obtain ⟨h1, h2, h3, w, h4⟩ := fkResolve_shape _ _ _ _ _ _ h
       exact ⟨h1, h2, h3, Or.inr ⟨w, h4⟩⟩)

theorem fkStep_get_ne (ad : Adapter) (ls : LS) (a : String × String) (ls' : LS)
    (h : fkStep ad ls a = some ls') (k : String) (hk : k ≠ a.1) :
    ls'.data.get? k = ls.data.get? k := by
  obtain ⟨-, -, -, hd | ⟨w, hd⟩⟩ := fkStep_shape ad ls a ls' h
  · rw [hd]
  · rw [hd, Fields.get?_set_ne _ _ _ _ (Ne.symm hk)]

theorem fkLoop_frames (ad : Adapter) (l : List (String × String)) :
    ∀ (ls ls' : LS), fkLoop ad ls l = some ls' →
      ls'.record = ls.record ∧ ls'.synthesized = ls.synthesized ∧ ls'.fresh = ls.fresh := by
  induction l with
  | nil => intro ls ls' h; cases h; exact ⟨rfl, rfl, rfl⟩
  | cons a rest ih =>
    intro ls ls' h
    unfold fkLoop at h
    cases hs : fkStep ad ls a with
    | none => rw [hs] at h; cases h
    | some ls₁ =>
      rw [hs] at h
      obtain ⟨r1, s1, f1, -⟩ := fkStep_shape ad ls a ls₁ hs
      obtain ⟨r2, s2, f2⟩ := ih ls₁ ls' h
      exact ⟨r2.trans r1, s2.trans s1, f2.trans f1⟩

theorem fkLoop_get_notin (ad : Adapter) (l : List (String × String)) (k : String)
    (hk : ∀ a ∈ l, a.1 ≠ k) :
    ∀ (ls ls' : LS), fkLoop ad ls l = some ls' → ls'.data.get? k = ls.data.get? k := by
  induction l with
  | nil => intro ls ls' h; cases h; rfl
  | cons a rest ih =>
    intro ls ls' h
    unfold fkLoop at h
    cases hs : fkStep ad ls a with
    | none => rw [hs] at h; cases h
    | some ls₁ =>
      rw [hs] at h
      have h1 : ls₁.data.get? k = ls.data.get? k :=
        fkStep_get_ne ad ls a ls₁ hs k (fun he => hk a (List.mem_cons_self a rest) (he ▸ rfl))
      have h2 := ih (fun b hb => hk b (List.mem_cons_of_mem a hb)) ls₁ ls' h
      exact h2.trans h1

/-! ### Symbolic evaluation of one static single-integer FK resolution -/

theorem fkStep_static (ad : Adapter) (ls : LS) (key target : String) (v : Value)
    (hv : ls.data.get? key = some v) (ht : truthy v = true)
    (hst : target ≠ "status") (hgen : strStartsWith target "*" = false) :
    fkStep ad ls (key, target) = fkResolve ad ls key v target := by
  have h1 : ((key, target).2 == "status") = false := by
    simpa using hst
  unfold fkStep
  simp only [hv, ht, h1, hgen]
  simp

theorem fkResolve_int_owned (ad : Adapter) (ls : LS) (key target : String) (n : Int)
    (tc : ModelDescriptor) (hlk : lookupModel ad target = some tc)
    (howned : tc.owned = true) :
    fkResolve ad ls key (.int n) target
      = some { ls with data := ls.data.set key (netbox_pk_to_nautobot_pk target (.int n)) } := by
  unfold fkResolve
  simp only [hlk, howned]
  simp

theorem fkResolve_int_pass (ad : Adapter) (ls : LS) (key target : String) (n : Int)
    (tc : ModelDescriptor) (e : IndexEntry) (hlk : lookupModel ad target = some tc)
    (howned : tc.owned = false) (hidx : ad.index target (.int n) = some e) :
    fkResolve ad ls key (.int n) target
      = some { ls with data := ls.data.set key (if e.ignore then Value.null else e.identifiers) } := by
  unfold fkResolve
  simp only [hlk, howned, hidx]
  cases hi : e.ignore <;> simp [hi]

theorem fkResolve_int_pass_missing (ad : Adapter) (ls : LS) (key target : String)
    (n : Int) (tc : ModelDescriptor) (hlk : lookupModel ad target = some tc)
    (howned : tc.owned = false) (hidx : ad.index target (.int n) = none) :
    fkResolve ad ls key (.int n) target = none := by
  unfold fkResolve
  simp only [hlk, howned, hidx]
  simp

/-- Claim C1: in the FK-fixup loop of `load_record`, a declared FK field
holding a truthy single-integer raw value is replaced by the deterministic
derived identifier `netbox_pk_to_nautobot_pk(target, value)` when the
target class is owned (`NautobotBaseModel`), and by the indexed record's
natural-key descriptor — or null when that record carries the IGNORE
flag — when the target class is pass-through. -/
theorem load_record_single_int_fk (ad : Adapter) (assocs : List (String × String))
    (key target : String) (n : Int) (tc : ModelDescriptor)
    (hmem : (key, target) ∈ assocs) (hnd : (assocs.map Prod.fst).Nodup)
    (hn : n ≠ 0) (hst : target ≠ "status") (hgen : strStartsWith target "*" = false)
    (hlk : lookupModel ad target = some tc) :
    ∀ ls ls', ls.data.get? key = some (.int n) → fkLoop ad ls assocs = some ls' →
      (tc.owned = true →
        ls'.data.get? key = some (netbox_pk_to_nautobot_pk target (.int n)))
      ∧ (tc.owned = false → ∀ e, ad.index target (.int n) = some e →
        ls'.data.get? key = some (if e.ignore then Value.null else e.identifiers)) := by
  have htr : truthy (.int n) = true := by simp [truthy, hn]
  revert hmem hnd
  induction assocs with
  | nil => intro hmem _; cases hmem
  | cons a rest ih =>
    intro hmem hnd ls ls' hv h
    rw [List.map_cons, List.nodup_cons] at hnd
    obtain ⟨hnd1, hnd2⟩ := hnd
    unfold fkLoop at h
    rcases List.mem_cons.mp hmem with heq | hmem'
    · -- the association under scrutiny is the head of the loop
      have hkey : a.1 = key := by rw [← heq]
      have hrest : ∀ b ∈ rest, b.1 ≠ key := by
        intro b hb hbk
        exact hnd1 (hkey ▸ hbk ▸ List.mem_map_of_mem Prod.fst hb)
      rw [← heq] at h
      rw [fkStep_static ad ls key target (.int n) hv htr hst hgen] at h
      cases howned : tc.owned with
      | true =>
        rw [fkResolve_int_owned ad ls key target n tc hlk howned] at h
        constructor
        · intro _
          have hpres := fkLoop_get_notin ad rest key hrest _ ls' h
          rw [hpres]
          exact Fields.get?_set_self _ _ _
        · intro hfalse
          exact absurd hfalse (by decide)
      | false =>
        constructor
        · intro htrue
          exact absurd htrue (by decide)
        · intro _ e he
          rw [fkResolve_int_pass ad ls key target n tc e hlk howned he] at h
          have hpres := fkLoop_get_notin ad rest key hrest _ ls' h
          rw [hpres]
          exact Fields.get?_set_self _ _ _
    · -- the association under scrutiny occurs later in the loop
      have hkne : key ≠ a.1 := by
        intro hk
        exact hnd1 (hk ▸ List.mem_map_of_mem Prod.fst hmem')
      cases hs : fkStep ad ls a with
      | none => rw [hs] at h; cases h
      | some ls₁ =>
        rw [hs] at h
        have hv₁ : ls₁.data.get? key = some (.int n) :=
          (fkStep_get_ne ad ls a ls₁ hs key hkne).trans hv
        exact ih hmem' hnd2 ls₁ ls' hv₁ h

/-- Claim C2: a FK declaration carrying the generic-FK marker (`*` prefix)
whose discriminator field holds an integer surrogate key that the
content-type index resolves to entity type `x` is processed by the FK-fixup
loop exactly as a static declaration with target `x` (for any actual entity
type `x`, i.e. not the `status` pseudo-target and not itself generic). -/
theorem generic_fk_matches_static (ad : Adapter) (ls : LS) (key t x : String)
    (ct : Int) (e : IndexEntry)
    (hgen : strStartsWith t "*" = true)
    (hdisc : ls.record.fields.get? (strDrop t 1) = some (.int ct))
    (hidx : ad.index "contenttype" (.int ct) = some e)
    (hmodel : e.model = x)
    (hxs : x ≠ "status") (hxg : strStartsWith x "*" = false) :
    fkStep ad ls (key, t) = fkStep ad ls (key, x) := by
  have hts : t ≠ "status" := by
    intro he; rw [he] at hgen; exact absurd hgen (by decide)
  have h1 : ((key, t).2 == "status") = false := by simpa using hts
  have h2 : ((key, x).2 == "status") = false := by simpa using hxs
  unfold fkStep
  cases hv : ls.data.get? key with
  | none => simp
  | some v =>
    simp only [hv]
    cases htr : truthy v with
    | false => simp [htr]
    | true =>
      simp only [htr, h1, h2, hgen, hxg, hdisc, hidx, hmodel]
      simp

theorem fkLoop_cons_of_step (ad : Adapter) (ls ls' : LS) (a : String × String)
    (hs : fkStep ad ls a = some ls') (rest : List (String × String)) :
    fkLoop ad ls (a :: rest) = fkLoop ad ls' rest := by
  conv_lhs => rw [fkLoop]
  rw [hs]

theorem fkResolve_invalid_value (ad : Adapter) (ls : LS) (key t : String) (v : Value)
    (tc : ModelDescriptor) (hlk : lookupModel ad t = some tc)
    (hint : v.isInt = false) (hlist : v.isList = false) :
    fkResolve ad ls key v t
      = some { ls with logs := ls.logs ++ [LogEntry.errorInvalidPk v],
                       data := ls.data.set key .null } := by
  unfold fkResolve
  simp only [hlk]
  cases v <;> simp_all [Value.isInt, Value.isList]

/-- Claim C6: each per-field resolution failure — a non-integer generic-FK
discriminator value, an unknown/unrecognized target type name, or a truthy
raw FK value that is neither integer nor list — sets that single field to
null, appends exactly one log line at error or warning severity, and the
FK-fixup loop continues with the remaining associations instead of
aborting. -/
theorem fk_failures_degrade_to_null (ad : Adapter) (ls : LS) (key : String) :
    (∀ t v w, ls.data.get? key = some v → truthy v = true →
      strStartsWith t "*" = true →
      ls.record.fields.get? (strDrop t 1) = some w → w.isInt = false →
      fkStep ad ls (key, t)
          = some { ls with logs := ls.logs ++ [LogEntry.errorInvalidContentTypePk w],
                           data := ls.data.set key .null }
        ∧ (LogEntry.errorInvalidContentTypePk w).sev = Severity.error
        ∧ ∀ rest, fkLoop ad ls ((key, t) :: rest)
            = fkLoop ad { ls with logs := ls.logs ++ [LogEntry.errorInvalidContentTypePk w],
                                  data := ls.data.set key .null } rest)
    ∧ (∀ t v, ls.data.get? key = some v → truthy v = true → t ≠ "status" →
      strStartsWith t "*" = false → lookupModel ad t = none →
      fkStep ad ls (key, t)
          = some { ls with logs := ls.logs ++ [LogEntry.warnUnknownClass t],
                           data := ls.data.set key .null }
        ∧ (LogEntry.warnUnknownClass t).sev = Severity.warning
        ∧ ∀ rest, fkLoop ad ls ((key, t) :: rest)
            = fkLoop ad { ls with logs := ls.logs ++ [LogEntry.warnUnknownClass t],
                                  data := ls.data.set key .null } rest)
    ∧ (∀ t v tc, ls.data.get? key = some v → truthy v = true → t ≠ "status" →
      strStartsWith t "*" = false → lookupModel ad t = some tc →
      v.isInt = false → v.isList = false →
      fkStep ad ls (key, t)
          = some { ls with logs := ls.logs ++ [LogEntry.errorInvalidPk v],
                           data := ls.data.set key .null }
        ∧ (LogEntry.errorInvalidPk v).sev = Severity.error
        ∧ ∀ rest, fkLoop ad ls ((key, t) :: rest)
            = fkLoop ad { ls with logs := ls.logs ++ [LogEntry.errorInvalidPk v],
                                  data := ls.data.set key .null } rest) := by
  refine ⟨?_, ?_, ?_⟩
  · intro t v w hv htr hgen hdisc hw
    have hts : t ≠ "status" := by
      intro he; rw [he] at hgen; exact absurd hgen (by decide)
    have h1 : ((key, t).2 == "status") = false := by simpa using hts
    have hstep : fkStep ad ls (key, t)
        = some { ls with logs := ls.logs ++ [LogEntry.errorInvalidContentTypePk w],
                         data := ls.data.set key .null } := by
      unfold fkStep
      simp only [hv, htr, h1, hgen, hdisc]
      cases w <;> simp_all [Value.isInt]
    exact ⟨hstep, rfl, fkLoop_cons_of_step ad ls _ _ hstep⟩
  · intro t v hv htr hts hgen hlk
    have h1 : ((key, t).2 == "status") = false := by simpa using hts
    have hstep : fkStep ad ls (key, t)
        = some { ls with logs := ls.logs ++ [LogEntry.warnUnknownClass t],
                         data := ls.data.set key .null } := by
      rw [fkStep_static ad ls key t v hv htr hts hgen]
      unfold fkResolve
      simp only [hlk]
    exact ⟨hstep, rfl, fkLoop_cons_of_step ad ls _ _ hstep⟩
  · intro t v tc hv htr hts hgen hlk hint hlist
    have hstep : fkStep ad ls (key, t)
        = some { ls with logs := ls.logs ++ [LogEntry.errorInvalidPk v],
                         data := ls.data.set key .null } := by
      rw [fkStep_static ad ls key t v hv htr hts hgen]
      exact fkResolve_invalid_value ad ls key t v tc hlk hint hlist
    exact ⟨hstep, rfl, fkLoop_cons_of_step ad ls _ _ hstep⟩

/-! ### Frame lemmas for the entity-type-specific fixups -/

theorem synthChoices_frame (recordPk : Int) (cs : List String) :
    ∀ ls : LS, (synthChoices recordPk ls cs).record = ls.record
      ∧ (synthChoices recordPk ls cs).data = ls.data
      ∧ (synthChoices recordPk ls cs).logs = ls.logs := by
  induction cs with
  | nil => intro ls; exact ⟨rfl, rfl, rfl⟩
  | cons c rest ih =>
    intro ls
    exact (ih _)

theorem loadRecord_inv (ad : Adapter) (source : List Record) (m : ModelDescriptor)
    (record : Record) (us : UnsupportedMap) (fresh : Nat) (out : LoadOut)
    (h : loadRecord ad source m record us fresh = some out) :
    ∃ ls1 ls2, fkLoop ad (initLS record fresh) m.fkAssociations = some ls1
      ∧ fixups source m record ls1 = some ls2
      ∧ out = { data := ls2.data, record := ls2.record,
                logs := ls2.logs ++ (log_ignored_fields us ls2.data (make_model m ls2.data)).2,
                synthesized := ls2.synthesized, inst := make_model m ls2.data,
                ignored := get_ignored_fields ls2.data (make_model m ls2.data),
                us := (log_ignored_fields us ls2.data (make_model m ls2.data)).1,
                fresh := ls2.fresh } := by
  unfold loadRecord at h
  split at h
  next => cases h
  next ls1 hfk =>
    split at h
    next => cases h
    next ls2 hfx =>
      cases h
      exact ⟨ls1, ls2, hfk, hfx, rfl⟩

theorem userFixup_record (source : List Record) (pk : Int) (ls ls' : LS)
    (h : userFixup source pk ls = some ls') : ls'.record = ls.record := by
  unfold userFixup at h
  repeat' split at h
  all_goals first
    | (cases h; rfl)
    | cases h

theorem customfieldSelectFixup_record (pk : Int) (ls ls' : LS)
    (h : customfieldSelectFixup pk ls = some ls') : ls'.record = ls.record := by
  unfold customfieldSelectFixup at h
  repeat' split at h
  all_goals first
    | (cases h; rfl)
    | (cases h
       simpa using (synthChoices_frame pk _ _).1)
    | cases h

theorem customfieldFixup_record (pk : Int) (ls ls' : LS)
    (h : customfieldFixup pk ls = some ls') : ls'.record = ls.record := by
  unfold customfieldFixup at h
  split at h
  next => cases h
  next req hreq =>
    simpa using customfieldSelectFixup_record pk _ _ h

theorem vmFixup_record (ls ls' : LS) (h : vmFixup ls = some ls') :
    ls'.record = ls.record := by
  unfold vmFixup at h
  repeat' split at h
  all_goals first
    | (cases h; rfl)
    | cases h

theorem fixups_record (source : List Record) (m : ModelDescriptor) (record : Record)
    (ls ls' : LS) (h : fixups source m record ls = some ls') :
    ls'.record = ls.record := by
  unfold fixups at h
  split at h
  · exact userFixup_record _ _ _ _ h
  · split at h
    · exact customfieldFixup_record _ _ _ h
    · split at h
      · exact vmFixup_record _ _ h
      · cases h; rfl

/-- Claim C9: `load_record` never mutates the source record: the record's
fields mapping (and the record as a whole) is the same after a successful
`load_record` as before — all rewriting happens on the working copy `data`. -/
theorem load_record_preserves_source (ad : Adapter) (source : List Record)
    (m : ModelDescriptor) (record : Record) (us : UnsupportedMap) (fresh : Nat)
    (out : LoadOut) (h : loadRecord ad source m record us fresh = some out) :
    out.record = record ∧ out.record.fields = record.fields := by
  obtain ⟨ls1, ls2, hfk, hfx, hout⟩ := loadRecord_inv ad source m record us fresh out h
  have h1 : ls1.record = record := (fkLoop_frames ad m.fkAssociations _ _ hfk).1
  have h2 : ls2.record = record := (fixups_record source m record ls1 ls2 hfx).trans h1
  rw [hout]
  exact ⟨h2, by rw [h2]⟩

/-! ### Characterizing the synthesized custom-field-choice records -/

/-- The choice records `synthChoices` appends when started at fresh counter
`f`: one per choice value, in order. -/
def mkChoices (recordPk : Int) (f : Nat) : List String → List Fields
  | [] => []
  | c :: rest =>
    [("pk", Value.uuid f),
     ("field", netbox_pk_to_nautobot_pk "customfield" (.int recordPk)),
     ("value", Value.str c)] :: mkChoices recordPk (f + 1) rest

theorem synthChoices_synthesized (recordPk : Int) (cs : List String) :
    ∀ ls : LS, (synthChoices recordPk ls cs).synthesized
      = ls.synthesized ++ mkChoices recordPk ls.fresh cs := by
  induction cs with
  | nil => intro ls; simp [synthChoices, mkChoices]
  | cons c rest ih =>
    intro ls
    rw [synthChoices, ih]
    simp [mkChoices]

theorem mkChoices_length (recordPk : Int) (cs : List String) :
    ∀ f, (mkChoices recordPk f cs).length = cs.length := by
  induction cs with
  | nil => intro f; rfl
  | cons c rest ih => intro f; simp [mkChoices, ih]

theorem mkChoices_field (recordPk : Int) (cs : List String) :
    ∀ f, ∀ r ∈ mkChoices recordPk f cs,
      Fields.get? r "field" = some (netbox_pk_to_nautobot_pk "customfield" (.int recordPk)) := by
  induction cs with
  | nil => intro f r hr; cases hr
  | cons c rest ih =>
    intro f r hr
    rcases List.mem_cons.mp hr with heq | hmem
    · subst heq; rfl
    · exact ih (f + 1) r hmem

theorem mkChoices_values (recordPk : Int) (cs : List String) :
    ∀ f, (mkChoices recordPk f cs).map (fun r => Fields.get? r "value")
      = cs.map (fun c => some (Value.str c)) := by
  induction cs with
  | nil => intro f; rfl
  | cons c rest ih =>
    intro f
    simp only [mkChoices, List.map_cons, ih (f + 1)]
    rfl

theorem mkChoices_pks (recordPk : Int) (cs : List String) :
    ∀ f, (mkChoices recordPk f cs).map (fun r => Fields.get? r "pk")
      = (List.range cs.length).map (fun i => some (Value.uuid (f + i))) := by
  induction cs with
  | nil => intro f; rfl
  | cons c rest ih =>
    intro f
    simp only [mkChoices, List.map_cons, ih (f + 1), List.length_cons,
      List.range_succ_eq_map, List.map_map]
    refine congrArg₂ List.cons rfl ?_
    apply List.map_congr_left
    intro i _
    simp only [Function.comp_apply, Option.some.injEq, Value.uuid.injEq]
    omega

theorem mkChoices_pks_nodup (recordPk : Int) (cs : List String) (f : Nat) :
    ((mkChoices recordPk f cs).map (fun r => Fields.get? r "pk")).Nodup := by
  rw [mkChoices_pks recordPk cs f]
  refine List.Nodup.map ?_ (List.nodup_range _)
  intro i j hij
  simp only [Option.some.injEq, Value.uuid.injEq] at hij
  omega

theorem synthChoices_fresh (recordPk : Int) (cs : List String) :
    ∀ ls : LS, (synthChoices recordPk ls cs).fresh = ls.fresh + cs.length := by
  induction cs with
  | nil => intro ls; simp [synthChoices]
  | cons c rest ih =>
    intro ls
    rw [synthChoices, ih]
    simp
    omega

theorem customfieldFixup_select (pk : Int) (ls : LS) (r : Value) (s : String)
    (cs : List String)
    (hreq : ls.data.get? "required" = some r)
    (hty : ls.data.get? "type" = some (.str "select"))
    (hch : ls.data.get? "choices" = some (.str s))
    (hparse : parseJsonStringArray s = some cs) :
    customfieldFixup pk ls
      = some { synthChoices pk
                 { ls with data := (ls.data.set "actual_required" r).set "required" (.bool false) } cs with
               data := (synthChoices pk
                 { ls with data := (ls.data.set "actual_required" r).set "required" (.bool false) } cs).data.erase "choices" } := by
  have hD_ty : ((ls.data.set "actual_required" r).set "required" (Value.bool false)).get? "type"
      = some (Value.str "select") := by
    rw [Fields.get?_set_ne _ _ _ _ (by decide), Fields.get?_set_ne _ _ _ _ (by decide)]
    exact hty
  have hD_ch : ((ls.data.set "actual_required" r).set "required" (Value.bool false)).get? "choices"
      = some (Value.str s) := by
    rw [Fields.get?_set_ne _ _ _ _ (by decide), Fields.get?_set_ne _ _ _ _ (by decide)]
    exact hch
  simp only [customfieldFixup, hreq, customfieldSelectFixup, hD_ty, hD_ch, hparse]
  simp

/-- Claim C3: for a custom-field-definition record, `load_record` copies the
original `required` flag into `actual_required` and forces `required` to
false; and when the record's type is `"select"` with serialized choices
`cs`, it synthesizes exactly one companion choice record per choice value
(so exactly 2 for `["a","b"]`), each carrying a fresh pairwise-distinct
identifier of its own and a derived-identifier reference back to the
parent, while the parent's resolved record retains no `choices` field. -/
theorem custom_field_select_fixup (ad : Adapter) (source : List Record)
    (m : ModelDescriptor) (record : Record) (us : UnsupportedMap) (fresh : Nat)
    (out : LoadOut) (r : Value) (s : String) (cs : List String)
    (hname : m.name = "customfield")
    (hfk : ∀ a ∈ m.fkAssociations, a.1 ≠ "required" ∧ a.1 ≠ "type" ∧ a.1 ≠ "choices")
    (hreq : record.fields.get? "required" = some r)
    (hty : record.fields.get? "type" = some (.str "select"))
    (hch : record.fields.get? "choices" = some (.str s))
    (hparse : parseJsonStringArray s = some cs)
    (h : loadRecord ad source m record us fresh = some out) :
    out.data.get? "actual_required" = some r
    ∧ out.data.get? "required" = some (.bool false)
    ∧ out.data.get? "choices" = none
    ∧ out.synthesized.length = cs.length
    ∧ (∀ c ∈ out.synthesized,
        Fields.get? c "field" = some (netbox_pk_to_nautobot_pk "customfield" (.int record.pk)))
    ∧ out.synthesized.map (fun c => Fields.get? c "value") = cs.map (fun c => some (Value.str c))
    ∧ (out.synthesized.map (fun c => Fields.get? c "pk")).Nodup := by
  obtain ⟨ls1, ls2, hfkl, hfx, hout⟩ := loadRecord_inv ad source m record us fresh out h
  -- the FK loop leaves the three custom-field bookkeeping fields untouched
  have h0req : (initLS record fresh).data.get? "required" = some r := by
    rw [initLS]
    rw [Fields.get?_set_ne _ _ _ _ (by decide)]
    exact hreq
  have h0ty : (initLS record fresh).data.get? "type" = some (.str "select") := by
    rw [initLS]
    rw [Fields.get?_set_ne _ _ _ _ (by decide)]
    exact hty
  have h0ch : (initLS record fresh).data.get? "choices" = some (.str s) := by
    rw [initLS]
    rw [Fields.get?_set_ne _ _ _ _ (by decide)]
    exact hch
  have h1req : ls1.data.get? "required" = some r :=
    (fkLoop_get_notin ad m.fkAssociations "required"
      (fun a ha => (hfk a ha).1) _ _ hfkl).trans h0req
  have h1ty : ls1.data.get? "type" = some (.str "select") :=
    (fkLoop_get_notin ad m.fkAssociations "type"
      (fun a ha => (hfk a ha).2.1) _ _ hfkl).trans h0ty
  have h1ch : ls1.data.get? "choices" = some (.str s) :=
    (fkLoop_get_notin ad m.fkAssociations "choices"
      (fun a ha => (hfk a ha).2.2) _ _ hfkl).trans h0ch
  obtain ⟨-, h1synth, h1fresh⟩ := fkLoop_frames ad m.fkAssociations _ _ hfkl
  -- the fixup dispatch picks the custom-field branch
  have hdisp : fixups source m record ls1 = customfieldFixup record.pk ls1 := by
    unfold fixups
    rw [hname]
    simp
  rw [hdisp, customfieldFixup_select record.pk ls1 r s cs h1req h1ty h1ch hparse] at hfx
  set ls1' : LS :=
    { ls1 with data := (ls1.data.set "actual_required" r).set "required" (.bool false) } with hls1'
  have hls2 : ls2 = { synthChoices record.pk ls1' cs with
      data := (synthChoices record.pk ls1' cs).data.erase "choices" } := by
    cases hfx
    rfl
  have hdata : out.data = (synthChoices record.pk ls1' cs).data.erase "choices" := by
    rw [hout, hls2]
  have hsdata : (synthChoices record.pk ls1' cs).data = ls1'.data :=
    (synthChoices_frame record.pk cs ls1').2.1
  have hsynth : out.synthesized = mkChoices record.pk fresh cs := by
    rw [hout, hls2]
    show (synthChoices record.pk ls1' cs).synthesized = _
    rw [synthChoices_synthesized]
    show ls1.synthesized ++ mkChoices record.pk ls1.fresh cs = _
    rw [h1synth, h1fresh]
    simp [initLS]
  refine ⟨?_, ?_, ?_, ?_, ?_, ?_, ?_⟩
  · rw [hdata, Fields.get?_erase_ne _ _ _ (by decide), hsdata]
    show ((ls1.data.set "actual_required" r).set "required" (Value.bool false)).get? "actual_required" = some r
    rw [Fields.get?_set_ne _ _ _ _ (by decide)]
    exact Fields.get?_set_self _ _ _
  · rw [hdata, Fields.get?_erase_ne _ _ _ (by decide), hsdata]
    exact Fields.get?_set_self _ _ _
  · rw [hdata]
    exact Fields.get?_erase_self _ _
  · rw [hsynth]
    exact mkChoices_length record.pk cs fresh
  · rw [hsynth]
    exact mkChoices_field record.pk cs fresh
  · rw [hsynth]
    exact mkChoices_values record.pk cs fresh
  · rw [hsynth]
    exact mkChoices_pks_nodup record.pk cs fresh

theorem userFixup_found (source : List Record) (pk : Int) (ls : LS) (uname : Value)
    (rcd : Record) (payload : Value)
    (hu : ls.data.get? "username" = some uname)
    (hfind : findUserConfig pk source = some (some rcd))
    (hdata : rcd.fields.get? "data" = some payload) :
    userFixup source pk ls
      = some { ls with logs := ls.logs ++ [LogEntry.debugLookingUserConfig uname],
                       data := ls.data.set "config_data" payload } := by
  unfold userFixup
  simp only [hu, hfind, hdata]

theorem userFixup_missing (source : List Record) (pk : Int) (ls : LS) (uname : Value)
    (hu : ls.data.get? "username" = some uname)
    (hfind : findUserConfig pk source = some none) :
    userFixup source pk ls
      = some { ls with logs := (ls.logs ++ [LogEntry.debugLookingUserConfig uname])
                         ++ [LogEntry.warnNoUserConfig uname pk],
                       data := ls.data.set "config_data" (.obj []) } := by
  unfold userFixup
  simp only [hu, hfind]

/-- Claim C7: when loading a record of the user entity type, `load_record`
searches the source dataset for the `users.userconfig` record whose
back-reference equals the record's surrogate key and attaches its payload
as `config_data`; when no such record exists it attaches `{}` and logs a
warning, without failing the record. -/
theorem user_config_merge (ad : Adapter) (source : List Record)
    (m : ModelDescriptor) (record : Record) (us : UnsupportedMap) (fresh : Nat)
    (out : LoadOut) (uname : Value)
    (hname : m.name = "user")
    (huser : record.fields.get? "username" = some uname)
    (hfku : ∀ a ∈ m.fkAssociations, a.1 ≠ "username")
    (h : loadRecord ad source m record us fresh = some out) :
    (∀ rcd payload, findUserConfig record.pk source = some (some rcd) →
      rcd.fields.get? "data" = some payload →
      out.data.get? "config_data" = some payload)
    ∧ (findUserConfig record.pk source = some none →
      out.data.get? "config_data" = some (.obj [])
      ∧ LogEntry.warnNoUserConfig uname record.pk ∈ out.logs
      ∧ (LogEntry.warnNoUserConfig uname record.pk).sev = Severity.warning) := by
  obtain ⟨ls1, ls2, hfkl, hfx, hout⟩ := loadRecord_inv ad source m record us fresh out h
  have h0u : (initLS record fresh).data.get? "username" = some uname := by
    rw [initLS]
    rw [Fields.get?_set_ne _ _ _ _ (by decide)]
    exact huser
  have h1u : ls1.data.get? "username" = some uname :=
    (fkLoop_get_notin ad m.fkAssociations "username" hfku _ _ hfkl).trans h0u
  have hdisp : fixups source m record ls1 = userFixup source record.pk ls1 := by
    unfold fixups
    rw [hname]
    simp
  rw [hdisp] at hfx
  constructor
  · intro rcd payload hfind hdata
    rw [userFixup_found source record.pk ls1 uname rcd payload h1u hfind hdata] at hfx
    cases hfx
    rw [hout]
    exact Fields.get?_set_self _ _ _
  · intro hfind
    rw [userFixup_missing source record.pk ls1 uname h1u hfind] at hfx
    cases hfx
    rw [hout]
    refine ⟨Fields.get?_set_self _ _ _, ?_, rfl⟩
    show LogEntry.warnNoUserConfig uname record.pk ∈
      ((ls1.logs ++ [LogEntry.debugLookingUserConfig uname])
        ++ [LogEntry.warnNoUserConfig uname record.pk]) ++ _
    simp

/-! ### Key uniqueness is preserved by the loader's dictionary updates -/

theorem Fields.mem_keys_set (fs : Fields) (k : String) (v : Value) (x : String) :
    x ∈ (fs.set k v).keys ↔ x ∈ fs.keys ∨ x = k := by
  induction fs with
  | nil => simp [Fields.set, Fields.keys]
  | cons kv rest ih =>
    obtain ⟨k₀, v₀⟩ := kv
    by_cases h : k₀ = k
    · subst h
      simp [Fields.set, Fields.keys]
      tauto
    · simp only [Fields.set, beq_iff_eq, h, if_false]
      simp only [Fields.keys, List.map_cons, List.mem_cons] at *
      rw [ih]
      tauto

theorem Fields.keys_set_nodup (fs : Fields) (k : String) (v : Value)
    (h : fs.keys.Nodup) : (fs.set k v).keys.Nodup := by
  induction fs with
  | nil => simp [Fields.set, Fields.keys]
  | cons kv rest ih =>
    obtain ⟨k₀, v₀⟩ := kv
    rw [Fields.keys, List.map_cons, List.nodup_cons] at h
    obtain ⟨hnotin, hnd⟩ := h
    by_cases hk : k₀ = k
    · subst hk
      simp only [Fields.set, beq_iff_eq, if_true]
      rw [Fields.keys, List.map_cons, List.nodup_cons]
      exact ⟨hnotin, hnd⟩
    · simp only [Fields.set, beq_iff_eq, hk, if_false]
      rw [Fields.keys, List.map_cons, List.nodup_cons]
      refine ⟨fun hc => ?_, ih hnd⟩
      rcases (Fields.mem_keys_set rest k v k₀).mp hc with hc' | hc'
      · exact hnotin hc'
      · exact hk hc' 

theorem Fields.keys_erase_sublist (fs : Fields) (k : String) :
    (fs.erase k).keys.Sublist fs.keys := by
  induction fs with
  | nil => simp [Fields.erase]
  | cons kv rest ih =>
    obtain ⟨k₀, v₀⟩ := kv
    by_cases h : k₀ = k
    · simp only [Fields.erase, beq_iff_eq, h, if_true]
      exact ih.trans (List.sublist_cons_self _ _)
    · simp only [Fields.erase, beq_iff_eq, h, if_false]
      exact List.Sublist.cons₂ _ ih

theorem Fields.keys_erase_nodup (fs : Fields) (k : String)
    (h : fs.keys.Nodup) : (fs.erase k).keys.Nodup :=
  h.sublist (Fields.keys_erase_sublist fs k)

theorem Fields.get?_of_mem_nodup (fs : Fields) (k : String) (v : Value)
    (hnd : fs.keys.Nodup) (hmem : (k, v) ∈ fs) : fs.get? k = some v := by
  induction fs with
  | nil => cases hmem
  | cons kv rest ih =>
    obtain ⟨k₀, v₀⟩ := kv
    rw [Fields.keys, List.map_cons, List.nodup_cons] at hnd
    obtain ⟨hnotin, hnd'⟩ := hnd
    rcases List.mem_cons.mp hmem with heq | hmem'
    · cases heq
      simp [Fields.get?]
    · have hk : k₀ ≠ k := by
        intro he
        subst he
        exact hnotin (List.mem_map_of_mem (fun x => x.1) hmem')
      rw [show Fields.get? ((k₀, v₀) :: rest) k = Fields.get? rest k by
        simp [Fields.get?, hk]]
      exact ih hnd' hmem'

theorem fkStep_keys_nodup (ad : Adapter) (ls : LS) (a : String × String) (ls' : LS)
    (h : fkStep ad ls a = some ls') (hnd : ls.data.keys.Nodup) :
    ls'.data.keys.Nodup := by
  obtain ⟨-, -, -, hd | ⟨w, hd⟩⟩ := fkStep_shape ad ls a ls' h
  · rw [hd]; exact hnd
  · rw [hd]; exact Fields.keys_set_nodup _ _ _ hnd

theorem fkLoop_keys_nodup (ad : Adapter) (l : List (String × String)) :
    ∀ (ls ls' : LS), fkLoop ad ls l = some ls' → ls.data.keys.Nodup →
      ls'.data.keys.Nodup := by
  induction l with
  | nil => intro ls ls' h hnd; cases h; exact hnd
  | cons a rest ih =>
    intro ls ls' h hnd
    unfold fkLoop at h
    cases hs : fkStep ad ls a with
    | none => rw [hs] at h; cases h
    | some ls₁ =>
      rw [hs] at h
      exact ih ls₁ ls' h (fkStep_keys_nodup ad ls a ls₁ hs hnd)

theorem userFixup_data_shape (source : List Record) (pk : Int) (ls ls' : LS)
    (h : userFixup source pk ls = some ls') :
    ∃ p, ls'.data = ls.data.set "config_data" p := by
  unfold userFixup at h
  repeat' split at h
  all_goals first
    | (cases h; exact ⟨_, rfl⟩)
    | cases h

theorem customfieldSelectFixup_data_shape (pk : Int) (ls ls' : LS)
    (h : customfieldSelectFixup pk ls = some ls') :
    ls'.data = ls.data ∨ ls'.data = ls.data.erase "choices" := by
  unfold customfieldSelectFixup at h
  repeat' split at h
  all_goals first
    | (cases h; exact Or.inl rfl)
    | (cases h
       right
       show (synthChoices pk ls _).data.erase "choices" = ls.data.erase "choices"
       rw [(synthChoices_frame pk _ ls).2.1])
    | cases h

theorem customfieldFixup_data_shape (pk : Int) (ls ls' : LS)
    (h : customfieldFixup pk ls = some ls') :
    ∃ r, ls'.data = (ls.data.set "actual_required" r).set "required" (.bool false)
      ∨ ls'.data = ((ls.data.set "actual_required" r).set "required" (.bool false)).erase "choices" := by
  unfold customfieldFixup at h
  split at h
  next => cases h
  next req hreq =>
    rcases customfieldSelectFixup_data_shape pk _ ls' h with hd | hd
    · exact ⟨req, Or.inl hd⟩
    · exact ⟨req, Or.inr hd⟩

theorem vmFixup_data_shape (ls ls' : LS) (h : vmFixup ls = some ls') :
    ls'.data = ls.data ∨ ∃ n, ls'.data = ls.data.set "vcpus" (.int n) := by
  unfold vmFixup at h
  repeat' split at h
  all_goals first
    | (cases h; exact Or.inl rfl)
    | (cases h; exact Or.inr ⟨_, rfl⟩)
    | cases h

theorem fixups_keys_nodup (source : List Record) (m : ModelDescriptor)
    (record : Record) (ls ls' : LS) (h : fixups source m record ls = some ls')
    (hnd : ls.data.keys.Nodup) : ls'.data.keys.Nodup := by
  unfold fixups at h
  split at h
  · obtain ⟨p, hd⟩ := userFixup_data_shape _ _ _ _ h
    rw [hd]
    exact Fields.keys_set_nodup _ _ _ hnd
  · split at h
    · obtain ⟨r, hd | hd⟩ := customfieldFixup_data_shape _ _ _ h
      · rw [hd]
        exact Fields.keys_set_nodup _ _ _ (Fields.keys_set_nodup _ _ _ hnd)
      · rw [hd]
        exact Fields.keys_erase_nodup _ _
          (Fields.keys_set_nodup _ _ _ (Fields.keys_set_nodup _ _ _ hnd))
    · split at h
      · rcases vmFixup_data_shape _ _ h with hd | ⟨n, hd⟩
        · rw [hd]; exact hnd
        · rw [hd]; exact Fields.keys_set_nodup _ _ _ hnd
      · cases h; exact hnd

theorem not_mem_get_ignored (data : Fields) (inst : Instance) (k : String)
    (hnd : data.keys.Nodup)
    (h : data.get? k = none ∨ data.get? k = some .null) :
    k ∉ get_ignored_fields data inst := by
  intro hmem
  unfold get_ignored_fields at hmem
  rw [List.mem_filter] at hmem
  obtain ⟨hmem1, -⟩ := hmem
  rw [List.mem_map] at hmem1
  obtain ⟨kv, hkv, hk⟩ := hmem1
  rw [List.mem_filter] at hkv
  obtain ⟨hkvmem, hp⟩ := hkv
  have htr : truthy kv.2 = true := by
    simp only [Bool.and_eq_true] at hp
    exact hp.1
  have hget : data.get? k = some kv.2 := by
    obtain ⟨k₁, v₁⟩ := kv
    cases hk
    exact Fields.get?_of_mem_nodup data _ _ hnd hkvmem
  rcases h with hke | hke
  · rw [hke] at hget; cases hget
  · rw [hke] at hget
    have : kv.2 = Value.null := by injection hget.symm
    rw [this] at htr
    cases htr

/-- Claim C10: the ignored-field set `load_record` reports to the drift
tracker is computed over the fixed-up field mapping with only truthy values
counted, so a field that was degraded to null (e.g. by a failed FK
resolution) or removed (e.g. a select custom field's `choices`) is never
reported. -/
theorem drift_over_fixed_up_fields (ad : Adapter) (source : List Record)
    (m : ModelDescriptor) (record : Record) (us : UnsupportedMap) (fresh : Nat)
    (out : LoadOut) (hnd : record.fields.keys.Nodup)
    (h : loadRecord ad source m record us fresh = some out) :
    out.ignored = get_ignored_fields out.data out.inst
    ∧ ∀ k, (out.data.get? k = none ∨ out.data.get? k = some .null) →
        k ∉ out.ignored := by
  obtain ⟨ls1, ls2, hfkl, hfx, hout⟩ := loadRecord_inv ad source m record us fresh out h
  have hnd0 : (initLS record fresh).data.keys.Nodup :=
    Fields.keys_set_nodup _ _ _ hnd
  have hnd1 : ls1.data.keys.Nodup := fkLoop_keys_nodup ad m.fkAssociations _ _ hfkl hnd0
  have hnd2 : ls2.data.keys.Nodup := fixups_keys_nodup source m record ls1 ls2 hfx hnd1
  constructor
  · rw [hout]
  · intro k hk
    rw [hout]
    rw [hout] at hk
    exact not_mem_get_ignored ls2.data (make_model m ls2.data) k hnd2 hk

/-! ### The drift tracker over a sequence of records -/

/-- One `_log_ignored_fields` invocation, threading the class-level
`_unsupported_fields` table and appending to the log. -/
def driftStep (st : UnsupportedMap × List LogEntry) (d : Fields × Instance) :
    UnsupportedMap × List LogEntry :=
  ((log_ignored_fields st.1 d.1 d.2).1, st.2 ++ (log_ignored_fields st.1 d.1 d.2).2)

/-- Method `_log_ignored_fields` applied to each record of a sequence in turn. -/
def driftRun : (UnsupportedMap × List LogEntry) → List (Fields × Instance) →
    UnsupportedMap × List LogEntry
  | st, [] => st
  | st, d :: rest => driftRun (driftStep st d) rest

/-- Does this log line mention the (entity type, field) pair at warning
severity?  Only the deduplicated drift warning interpolates field names at
warning severity. -/
def mentionsWarn (m f : String) : LogEntry → Bool
  | .warnIgnored m' fs => m' == m && fs.contains f
  | _ => false

/-- Number of warning-severity drift lines mentioning `(m, f)`. -/
def warnMentions (m f : String) (logs : List LogEntry) : Nat :=
  (logs.filter (mentionsWarn m f)).length

/-- Is this the per-instance debug-severity drift line? -/
def isDebugIgnored : LogEntry → Bool
  | .debugIgnored _ _ => true
  | _ => false

/-- Number of per-instance debug-severity drift lines. -/
def debugCount (logs : List LogEntry) : Nat :=
  (logs.filter isDebugIgnored).length

theorem usLookup?_set_self (us : UnsupportedMap) (m : String) (fs : List String) :
    usLookup? (usSet us m fs) m = some fs := by
  induction us with
  | nil => simp [usSet, usLookup?]
  | cons kv rest ih =>
    obtain ⟨m₀, fs₀⟩ := kv
    by_cases h : m₀ = m
    · simp [usSet, usLookup?, h]
    · simp only [usSet, beq_iff_eq, h, if_false]
      simpa [usLookup?, h] using ih

theorem usLookup?_set_ne (us : UnsupportedMap) (m m' : String) (fs : List String)
    (h : m' ≠ m) : usLookup? (usSet us m' fs) m = usLookup? us m := by
  induction us with
  | nil => simp [usSet, usLookup?, h]
  | cons kv rest ih =>
    obtain ⟨m₀, fs₀⟩ := kv
    by_cases h₀ : m₀ = m'
    · simp [usSet, usLookup?, h₀, h]
    · simp only [usSet, beq_iff_eq, h₀, if_false]
      by_cases hm : m₀ = m
      · simp [usLookup?, hm]
      · simpa [usLookup?, hm] using ih

/-- After one `_log_ignored_fields_info` call the per-type recorded sets
only grow. -/
theorem log_info_monotone (us : UnsupportedMap) (m : String) (ig : List String) :
    ∀ m', usLookupD us m' ⊆ usLookupD (log_ignored_fields_info us m ig).1 m' := by
  intro m' x hx
  unfold log_ignored_fields_info
  cases hl : usLookup? us m with
  | none =>
    simp only [hl]
    by_cases hm : m' = m
    · subst hm
      rw [usLookupD, hl] at hx
      cases hx
    · rw [usLookupD, usLookup?_set_ne us m' m ig (Ne.symm hm)]
      exact hx
  | some prev =>
    simp only [hl]
    split
    · exact hx
    · by_cases hm : m' = m
      · subst hm
        rw [usLookupD, usLookup?_set_self]
        rw [usLookupD, hl] at hx
        simp only [Option.getD_some]
        exact List.mem_append_left _ hx
      · rw [usLookupD, usLookup?_set_ne us m' m _ (Ne.symm hm)]
        exact hx

theorem log_ignored_fields_monotone (us : UnsupportedMap) (data : Fields)
    (inst : Instance) :
    ∀ m', usLookupD us m' ⊆ usLookupD (log_ignored_fields us data inst).1 m' := by
  intro m'
  unfold log_ignored_fields
  split
  · exact fun x hx => hx
  · exact log_info_monotone us inst.modelname _ m'

/-- Characterization of `_log_ignored_fields_info` when the model has no
recorded entry yet. -/
theorem log_info_none (us : UnsupportedMap) (mn : String) (ig : List String)
    (hl : usLookup? us mn = none) :
    log_ignored_fields_info us mn ig = (usSet us mn ig, [.warnIgnored mn ig]) := by
  simp only [log_ignored_fields_info, hl]

/-- Characterization of `_log_ignored_fields_info` when every ignored field
was already recorded. -/
theorem log_info_some_empty (us : UnsupportedMap) (mn : String) (ig prev : List String)
    (hl : usLookup? us mn = some prev)
    (he : (ig.filter (fun f => !prev.contains f)).isEmpty = true) :
    log_ignored_fields_info us mn ig = (us, []) := by
  simp only [log_ignored_fields_info, hl, he]
  simp

/-- Characterization of `_log_ignored_fields_info` when some ignored fields
are new. -/
theorem log_info_some_nonempty (us : UnsupportedMap) (mn : String) (ig prev : List String)
    (hl : usLookup? us mn = some prev)
    (he : (ig.filter (fun f => !prev.contains f)).isEmpty = false) :
    log_ignored_fields_info us mn ig
      = (usSet us mn (prev ++ ig.filter (fun f => !prev.contains f)),
         [.warnIgnored mn (ig.filter (fun f => !prev.contains f))]) := by
  simp only [log_ignored_fields_info, hl, he]
  simp

/-- Every log line `_log_ignored_fields_info` emits is a drift warning for
the given model, and mentions no field already recorded for it. -/
theorem log_info_mem_logs (us : UnsupportedMap) (mn : String) (ig : List String)
    (e : LogEntry) (he : e ∈ (log_ignored_fields_info us mn ig).2) :
    ∃ fs, e = .warnIgnored mn fs
      ∧ (∀ prev, usLookup? us mn = some prev → ∀ x ∈ fs, x ∉ prev) := by
  cases hl : usLookup? us mn with
  | none =>
    rw [log_info_none us mn ig hl, List.mem_singleton] at he
    exact ⟨ig, he, fun prev hp => absurd hp (by simp)⟩
  | some prev =>
    cases hemp : (ig.filter (fun f => !prev.contains f)).isEmpty with
    | true =>
      rw [log_info_some_empty us mn ig prev hl hemp] at he
      cases he
    | false =>
      rw [log_info_some_nonempty us mn ig prev hl hemp, List.mem_singleton] at he
      refine ⟨_, he, ?_⟩
      intro prev2 hp2 x hx
      have hpp : prev = prev2 := Option.some.inj hp2
      subst hpp
      rw [List.mem_filter] at hx
      obtain ⟨-, hx2⟩ := hx
      intro hxprev
      have hcx : prev.contains x = true := List.elem_iff.mpr hxprev
      rw [hcx] at hx2
      simp at hx2

theorem warnMentions_append (m f : String) (l1 l2 : List LogEntry) :
    warnMentions m f (l1 ++ l2) = warnMentions m f l1 + warnMentions m f l2 := by
  unfold warnMentions
  rw [List.filter_append, List.length_append]

theorem warnMentions_cons_false (m f : String) (e : LogEntry) (l : List LogEntry)
    (he : mentionsWarn m f e = false) :
    warnMentions m f (e :: l) = warnMentions m f l := by
  unfold warnMentions
  rw [List.filter_cons, he]
  simp

theorem warnMentions_singleton_le (m f : String) (e : LogEntry) :
    warnMentions m f [e] ≤ 1 := by
  unfold warnMentions
  cases hw : mentionsWarn m f e <;> simp [List.filter_cons, hw]

theorem warnMentions_eq_zero (m f : String) (l : List LogEntry)
    (h : ∀ e ∈ l, mentionsWarn m f e = false) : warnMentions m f l = 0 := by
  induction l with
  | nil => rfl
  | cons e rest ih =>
    rw [warnMentions_cons_false m f e rest (h e (List.mem_cons_self e rest))]
    exact ih (fun x hx => h x (List.mem_cons_of_mem e hx))

theorem debugCount_append (l1 l2 : List LogEntry) :
    debugCount (l1 ++ l2) = debugCount l1 + debugCount l2 := by
  unfold debugCount
  rw [List.filter_append, List.length_append]

theorem debugCount_eq_zero (l : List LogEntry)
    (h : ∀ e ∈ l, isDebugIgnored e = false) : debugCount l = 0 := by
  induction l with
  | nil => rfl
  | cons e rest ih =>
    unfold debugCount
    rw [List.filter_cons, h e (List.mem_cons_self e rest)]
    simp only [Bool.false_eq_true, if_false]
    exact ih (fun x hx => h x (List.mem_cons_of_mem e hx))

/-- Once `(m, f)` is recorded, `_log_ignored_fields` emits no further
warning mentioning it, and it stays recorded. -/
theorem log_ignored_fields_recorded (us : UnsupportedMap) (data : Fields)
    (inst : Instance) (m f : String) (hrec : f ∈ usLookupD us m) :
    (∀ e ∈ (log_ignored_fields us data inst).2, mentionsWarn m f e = false)
    ∧ f ∈ usLookupD (log_ignored_fields us data inst).1 m := by
  refine ⟨?_, log_ignored_fields_monotone us data inst m hrec⟩
  intro e he
  unfold log_ignored_fields at he
  split at he
  · cases he
  · rw [List.mem_cons] at he
    rcases he with he | he
    · rw [he]; rfl
    · obtain ⟨fs, rfl, hnp⟩ := log_info_mem_logs us inst.modelname _ e he
      by_cases hm : inst.modelname = m
      · subst hm
        cases hl : usLookup? us inst.modelname with
        | none =>
          rw [usLookupD, hl] at hrec
          cases hrec
        | some prev =>
          rw [usLookupD, hl, Option.getD_some] at hrec
          simp only [mentionsWarn, beq_self_eq_true, Bool.true_and]
          cases hc : fs.contains f with
          | false => rfl
          | true => exact absurd hrec (hnp prev hl f (List.elem_iff.mp hc))
      · simp [mentionsWarn, hm]

/-- A `_log_ignored_fields` call on a record that ignores `f` records `f`
for the record's model. -/
theorem log_ignored_fields_records (us : UnsupportedMap) (data : Fields)
    (inst : Instance) (f : String) (hmem : f ∈ get_ignored_fields data inst) :
    f ∈ usLookupD (log_ignored_fields us data inst).1 inst.modelname := by
  have hne : (get_ignored_fields data inst).isEmpty = false := by
    cases hie : (get_ignored_fields data inst).isEmpty with
    | false => rfl
    | true =>
      rw [List.isEmpty_iff] at hie
      rw [hie] at hmem
      cases hmem
  unfold log_ignored_fields
  rw [hne]
  simp only [Bool.false_eq_true, if_false]
  cases hl : usLookup? us inst.modelname with
  | none =>
    rw [log_info_none us _ _ hl]
    show f ∈ usLookupD (usSet us inst.modelname (get_ignored_fields data inst)) inst.modelname
    rw [usLookupD, usLookup?_set_self, Option.getD_some]
    exact hmem
  | some prev =>
    by_cases hfp : f ∈ prev
    · apply log_info_monotone us inst.modelname (get_ignored_fields data inst) inst.modelname
      rw [usLookupD, hl, Option.getD_some]
      exact hfp
    · have hcf : prev.contains f = false := by
        cases hc : prev.contains f with
        | false => rfl
        | true => exact absurd (List.elem_iff.mp hc) hfp
      have hfu : f ∈ (get_ignored_fields data inst).filter (fun x => !prev.contains x) := by
        rw [List.mem_filter]
        exact ⟨hmem, by rw [hcf]; rfl⟩
      have hne2 : ((get_ignored_fields data inst).filter (fun x => !prev.contains x)).isEmpty
          = false := by
        cases hie : ((get_ignored_fields data inst).filter (fun x => !prev.contains x)).isEmpty with
        | false => rfl
        | true =>
          rw [List.isEmpty_iff] at hie
          rw [hie] at hfu
          cases hfu
      rw [log_info_some_nonempty us _ _ prev hl hne2]
      show f ∈ usLookupD (usSet us inst.modelname _) inst.modelname
      rw [usLookupD, usLookup?_set_self, Option.getD_some]
      exact List.mem_append_right _ hfu

/-- Method `_log_ignored_fields` emits at most one warning mentioning `(m, f)`. -/
theorem log_ignored_fields_le_one (us : UnsupportedMap) (data : Fields)
    (inst : Instance) (m f : String) :
    warnMentions m f (log_ignored_fields us data inst).2 ≤ 1 := by
  unfold log_ignored_fields
  split
  · exact Nat.le_of_eq rfl |>.trans (by simp [warnMentions])
  · show warnMentions m f
        (LogEntry.debugIgnored inst.modelname (get_ignored_fields data inst)
          :: (log_ignored_fields_info us inst.modelname (get_ignored_fields data inst)).2) ≤ 1
    rw [warnMentions_cons_false m f
      (LogEntry.debugIgnored inst.modelname (get_ignored_fields data inst))
      (log_ignored_fields_info us inst.modelname (get_ignored_fields data inst)).2 rfl]
    cases hl : usLookup? us inst.modelname with
    | none =>
      rw [log_info_none us _ _ hl]
      exact warnMentions_singleton_le m f _
    | some prev =>
      cases hemp : ((get_ignored_fields data inst).filter (fun x => !prev.contains x)).isEmpty with
      | true =>
        rw [log_info_some_empty us _ _ prev hl hemp]
        exact Nat.le_of_eq rfl |>.trans (by simp [warnMentions])
      | false =>
        rw [log_info_some_nonempty us _ _ prev hl hemp]
        exact warnMentions_singleton_le m f _

/-- Method `_log_ignored_fields` emits exactly one debug-severity line when the
record has ignored fields. -/
theorem log_ignored_fields_debug (us : UnsupportedMap) (data : Fields)
    (inst : Instance) (f : String) (hmem : f ∈ get_ignored_fields data inst) :
    debugCount (log_ignored_fields us data inst).2 = 1 := by
  have hne : (get_ignored_fields data inst).isEmpty = false := by
    cases hie : (get_ignored_fields data inst).isEmpty with
    | false => rfl
    | true =>
      rw [List.isEmpty_iff] at hie
      rw [hie] at hmem
      cases hmem
  unfold log_ignored_fields
  rw [hne]
  simp only [Bool.false_eq_true, if_false]
  show debugCount
      (LogEntry.debugIgnored inst.modelname (get_ignored_fields data inst)
        :: (log_ignored_fields_info us inst.modelname (get_ignored_fields data inst)).2) = 1
  have hzero : debugCount
      (log_ignored_fields_info us inst.modelname (get_ignored_fields data inst)).2 = 0 := by
    apply debugCount_eq_zero
    intro e he
    obtain ⟨fs, rfl, -⟩ := log_info_mem_logs us inst.modelname _ e he
    rfl
  unfold debugCount at hzero ⊢
  rw [List.filter_cons]
  simp only [isDebugIgnored, if_true, List.length_cons, hzero]

/-- Once `(m, f)` is recorded, a whole run of further `_log_ignored_fields`
calls adds no warning mentioning it, and it stays recorded. -/
theorem driftRun_recorded (m f : String) (inputs : List (Fields × Instance)) :
    ∀ us logs, f ∈ usLookupD us m →
      warnMentions m f (driftRun (us, logs) inputs).2 = warnMentions m f logs
      ∧ f ∈ usLookupD (driftRun (us, logs) inputs).1 m := by
  induction inputs with
  | nil => intro us logs hrec; exact ⟨rfl, hrec⟩
  | cons d rest ih =>
    intro us logs hrec
    obtain ⟨hno, hkeep⟩ := log_ignored_fields_recorded us d.1 d.2 m f hrec
    obtain ⟨ih1, ih2⟩ := ih (log_ignored_fields us d.1 d.2).1 (logs ++ (log_ignored_fields us d.1 d.2).2) hkeep
    refine ⟨?_, ih2⟩
    show warnMentions m f (driftRun (driftStep (us, logs) d) rest).2 = _
    unfold driftStep
    rw [ih1, warnMentions_append, warnMentions_eq_zero m f _ hno]
    omega

/-- The drift table only ever grows over a run of records. -/
theorem driftRun_monotone (inputs : List (Fields × Instance)) :
    ∀ us logs m', usLookupD us m' ⊆ usLookupD (driftRun (us, logs) inputs).1 m' := by
  induction inputs with
  | nil => intro us logs m'; exact fun x hx => hx
  | cons d rest ih =>
    intro us logs m'
    intro x hx
    show x ∈ usLookupD (driftRun (driftStep (us, logs) d) rest).1 m'
    unfold driftStep
    exact ih _ _ m' (log_ignored_fields_monotone us d.1 d.2 m' hx)

/-- Each record with ignored fields contributes exactly one debug line. -/
theorem driftRun_debug (f : String) (inputs : List (Fields × Instance))
    (hf : ∀ d ∈ inputs, f ∈ get_ignored_fields d.1 d.2) :
    ∀ us logs, debugCount (driftRun (us, logs) inputs).2
      = debugCount logs + inputs.length := by
  revert hf
  induction inputs with
  | nil => intro _ us logs; rfl
  | cons d rest ih =>
    intro hf us logs
    show debugCount (driftRun (driftStep (us, logs) d) rest).2 = _
    unfold driftStep
    rw [ih (fun x hx => hf x (List.mem_cons_of_mem d hx)) _ _]
    rw [debugCount_append,
      log_ignored_fields_debug us d.1 d.2 f (hf d (List.mem_cons_self d rest))]
    simp only [List.length_cons]
    omega

/-- Claim C4: feeding any number of records of the same entity type, each
ignoring the same unsupported field `f`, through the drift tracker emits at
most one new warning-severity line mentioning `(m, f)` over the whole
sequence, while emitting exactly one undeduplicated debug-severity line per
record; and the per-type recorded sets only ever grow. -/
theorem drift_tracker_dedup (inputs : List (Fields × Instance)) (m f : String)
    (us0 : UnsupportedMap) (logs0 : List LogEntry)
    (hm : ∀ d ∈ inputs, d.2.modelname = m)
    (hf : ∀ d ∈ inputs, f ∈ get_ignored_fields d.1 d.2) :
    warnMentions m f (driftRun (us0, logs0) inputs).2 ≤ warnMentions m f logs0 + 1
    ∧ debugCount (driftRun (us0, logs0) inputs).2 = debugCount logs0 + inputs.length
    ∧ ∀ m', usLookupD us0 m' ⊆ usLookupD (driftRun (us0, logs0) inputs).1 m' := by
  refine ⟨?_, driftRun_debug f inputs hf us0 logs0, driftRun_monotone inputs us0 logs0⟩
  cases inputs with
  | nil => exact Nat.le_succ _
  | cons d rest =>
    have hmd := hm d (List.mem_cons_self d rest)
    have hfd := hf d (List.mem_cons_self d rest)
    have hrec : f ∈ usLookupD (log_ignored_fields us0 d.1 d.2).1 m := by
      rw [← hmd]
      exact log_ignored_fields_records us0 d.1 d.2 f hfd
    show warnMentions m f (driftRun (driftStep (us0, logs0) d) rest).2 ≤ _
    unfold driftStep
    obtain ⟨heq, -⟩ := driftRun_recorded m f rest (log_ignored_fields us0 d.1 d.2).1
      (logs0 ++ (log_ignored_fields us0 d.1 d.2).2) hrec
    rw [heq, warnMentions_append]
    have := log_ignored_fields_le_one us0 d.1 d.2 m f
    omega

/-! ### The orchestrator -/

theorem lookupModel_name (ad : Adapter) (n : String) (m : ModelDescriptor)
    (h : lookupModel ad n = some m) : m.name = n := by
  unfold lookupModel at h
  have := List.find?_some h
  simpa using this

theorem loadRecord_us_monotone (ad : Adapter) (source : List Record)
    (m : ModelDescriptor) (record : Record) (us : UnsupportedMap) (fresh : Nat)
    (out : LoadOut) (h : loadRecord ad source m record us fresh = some out) :
    ∀ m', usLookupD us m' ⊆ usLookupD out.us m' := by
  obtain ⟨ls1, ls2, -, -, hout⟩ := loadRecord_inv ad source m record us fresh out h
  rw [hout]
  exact fun m' => log_ignored_fields_monotone us ls2.data (make_model m ls2.data) m'

theorem loadRecords_facts (ad : Adapter) (source : List Record)
    (m : ModelDescriptor) (rs : List Record) :
    ∀ st st', loadRecords ad source m st rs = some st' →
      st'.trace = st.trace ++ rs.map (fun r => (m.name, r))
      ∧ st'.sourceData = st.sourceData
      ∧ ∀ m', usLookupD st.us m' ⊆ usLookupD st'.us m' := by
  induction rs with
  | nil =>
    intro st st' h
    cases h
    exact ⟨by simp, rfl, fun m' x hx => hx⟩
  | cons r rest ih =>
    intro st st' h
    unfold loadRecords at h
    cases hlr : loadRecord ad source m r st.us st.fresh with
    | none => rw [hlr] at h; cases h
    | some out =>
      rw [hlr] at h
      obtain ⟨htr, hsd, hus⟩ := ih _ _ h
      refine ⟨?_, hsd, ?_⟩
      · rw [htr]
        simp
      · intro m' x hx
        exact hus m' (loadRecord_us_monotone ad source m r st.us st.fresh out hlr m' hx)

theorem loadModels_facts (ad : Adapter) (names : List String) :
    ∀ st st' source, loadModels ad st names = some st' → st.sourceData = some source →
      st'.trace = st.trace ++ expectedTrace ad source names
      ∧ st'.sourceData = st.sourceData
      ∧ ∀ m', usLookupD st.us m' ⊆ usLookupD st'.us m' := by
  induction names with
  | nil =>
    intro st st' source h hsd
    cases h
    exact ⟨by simp [expectedTrace], rfl, fun m' x hx => hx⟩
  | cons n rest ih =>
    intro st st' source h hsd
    unfold loadModels at h
    cases hlm : lookupModel ad n with
    | none => rw [hlm] at h; cases h
    | some m =>
      simp only [hlm, hsd] at h
      have hexp : expectedTrace ad source (n :: rest)
          = (source.filter (fun r => r.model == effectiveLabel m)).map (fun r => (n, r))
            ++ expectedTrace ad source rest := by
        conv_lhs => rw [expectedTrace]
        simp only [hlm]
      split at h
      next hemp =>
        obtain ⟨htr, hsd', hus⟩ := ih st st' source h hsd
        rw [List.isEmpty_iff] at hemp
        refine ⟨?_, hsd', hus⟩
        rw [htr, hexp, hemp]
        simp
      next hemp =>
        cases hlr : loadRecords ad source m st
            (source.filter (fun r => r.model == effectiveLabel m)) with
        | none => rw [hlr] at h; cases h
        | some st₁ =>
          rw [hlr] at h
          obtain ⟨htr1, hsd1, hus1⟩ := loadRecords_facts ad source m _ st st₁ hlr
          obtain ⟨htr2, hsd2, hus2⟩ := ih st₁ st' source h (hsd1.trans hsd)
          refine ⟨?_, hsd2.trans hsd1, fun m' x hx => hus2 m' (hus1 m' hx)⟩
          rw [htr2, htr1, hexp, lookupModel_name ad n m hlm]
          simp

theorem loadModels_cons_sourceData (ad : Adapter) (st st' : OrchSt) (n : String)
    (rest : List String) (h : loadModels ad st (n :: rest) = some st') :
    ∃ source, st.sourceData = some source := by
  unfold loadModels at h
  cases hlm : lookupModel ad n with
  | none => rw [hlm] at h; cases h
  | some m =>
    rw [hlm] at h
    cases hsd : st.sourceData with
    | none => rw [hsd] at h; cases h
    | some source => exact ⟨source, rfl⟩

/-- Claim C5 (amended): after `load` completes, the source dataset
reference is released (`self.source_data = None`), but the drift table is
not discarded — it is class-level state that survives the run, and the run
only ever grows it. -/
theorem load_releases_source_keeps_drift (ad : Adapter) (st st' : OrchSt)
    (h : load ad st = some st') :
    st'.sourceData = none
    ∧ ∀ m', usLookupD st.us m' ⊆ usLookupD st'.us m' := by
  unfold load at h
  cases hlm : loadModels ad
      { st with logs := st.logs ++ [LogEntry.infoMsg "Loading imported NetBox source data into DiffSync..."] }
      ("contenttype" :: "permission" :: ad.topLevel) with
  | none => rw [hlm] at h; cases h
  | some st₁ =>
    rw [hlm] at h
    cases h
    obtain ⟨source, hsd⟩ := loadModels_cons_sourceData ad _ st₁ _ _ hlm
    obtain ⟨-, -, hus⟩ := loadModels_facts ad _ _ st₁ source hlm hsd
    exact ⟨rfl, hus⟩

/-- Claim C8: `load` feeds records to `load_record` grouped by entity type
in the fixed order (content-type and permission catalogs first, then the
declared `top_level` ordering), filtering the source dataset by each type's
own label except for the user type, whose NetBox-side label `auth.user` is
special-cased in place of `users.user` (see `effectiveLabel`). -/
theorem load_fixed_order_and_labels (ad : Adapter) (st st' : OrchSt)
    (source : List Record) (h : load ad st = some st')
    (hsd : st.sourceData = some source) :
    st'.trace = st.trace ++ expectedTrace ad source (loadOrder ad) := by
  unfold load at h
  cases hlm : loadModels ad
      { st with logs := st.logs ++ [LogEntry.infoMsg "Loading imported NetBox source data into DiffSync..."] }
      ("contenttype" :: "permission" :: ad.topLevel) with
  | none => rw [hlm] at h; cases h
  | some st₁ =>
    rw [hlm] at h
    cases h
    obtain ⟨htr, -, -⟩ := loadModels_facts ad _ _ st₁ source hlm hsd
    exact htr

/-! ### Concrete fixtures -/

/-- A content-type index entry resolving surrogate key 3 to `region`. -/
def ctEntry3 : IndexEntry :=
  { ignore := false,
    identifiers := .obj [("app_label", .str "dcim"), ("model", .str "region")],
    model := "region" }

/-- A pass-through `group` record's index entry. -/
def groupEntry : IndexEntry :=
  { ignore := false, identifiers := .obj [("name", .str "ops")], model := "group" }

def ctDescr : ModelDescriptor :=
  { name := "contenttype", owned := false, fkAssociations := [],
    label := "contenttypes.contenttype",
    recognizedFields := ["app_label", "model", "pk"], aliases := [], ignoredFields := [] }

def permDescr : ModelDescriptor :=
  { name := "permission", owned := false, fkAssociations := [],
    label := "auth.permission", recognizedFields := [], aliases := [], ignoredFields := [] }

def regionDescr : ModelDescriptor :=
  { name := "region", owned := true, fkAssociations := [], label := "dcim.region",
    recognizedFields := ["name", "pk"], aliases := [], ignoredFields := [] }

def groupDescr : ModelDescriptor :=
  { name := "group", owned := false, fkAssociations := [], label := "auth.group",
    recognizedFields := [], aliases := [], ignoredFields := [] }

def siteDescr : ModelDescriptor :=
  { name := "site", owned := true,
    fkAssociations := [("region", "region"), ("group", "group"), ("broken", "nosuchmodel")],
    label := "dcim.site",
    recognizedFields := ["name", "region", "group", "pk"], aliases := [], ignoredFields := [] }

def cfDescr : ModelDescriptor :=
  { name := "customfield", owned := true,
    fkAssociations := [("content_types", "contenttype")], label := "extras.customfield",
    recognizedFields := ["name", "type", "required", "actual_required", "pk"],
    aliases := [], ignoredFields := [] }

def userDescr : ModelDescriptor :=
  { name := "user", owned := true, fkAssociations := [], label := "users.user",
    recognizedFields := ["username", "config_data", "pk"], aliases := [], ignoredFields := [] }

def adFix : Adapter :=
  { models := [ctDescr, permDescr, regionDescr, groupDescr, siteDescr, cfDescr, userDescr],
    index := fun n pk =>
      match pk with
      | .int k =>
        if n == "contenttype" && k == 3 then some ctEntry3
        else if n == "group" && k == 7 then some groupEntry
        else none
      | _ => none,
    topLevel := ["site", "user"] }

def siteRec : Record :=
  { model := "dcim.site", pk := 10,
    fields := [("name", .str "hq"), ("region", .int 5), ("group", .int 7),
               ("broken", .int 9), ("slug", .str "hq")] }

def cfRec : Record :=
  { model := "extras.customfield", pk := 7,
    fields := [("name", .str "color"), ("type", .str "select"),
               ("required", .bool true), ("choices", .str "[\"a\", \"b\"]")] }

def userRec : Record :=
  { model := "auth.user", pk := 2, fields := [("username", .str "alice")] }

def ucRec : Record :=
  { model := "users.userconfig", pk := 9,
    fields := [("user", .int 2), ("data", .obj [("theme", .str "dark")])] }

def gfkRec : Record :=
  { model := "dcim.x", pk := 1,
    fields := [("gfk", .int 5), ("ct_field", .int 3), ("bad_field", .str "nope"),
               ("strfk", .str "oops")] }

def lsFix : LS := initLS gfkRec 0

def instSite : Instance :=
  { modelname := "site", fieldsSet := ["name"], fieldAliases := [], ignoredFields := [] }

def c4data : Fields := [("name", .str "hq"), ("slug", .str "x")]

def c4inputs : List (Fields × Instance) := [(c4data, instSite), (c4data, instSite)]

def adFix5 : Adapter :=
  { models := [ctDescr, permDescr], index := fun _ _ => none, topLevel := [] }

def stFix5 : OrchSt :=
  { sourceData := some [], us := [("site", ["asn"])], logs := [], fresh := 0, trace := [] }

def stFix8 : OrchSt :=
  { sourceData := some [siteRec, userRec, ucRec], us := [], logs := [], fresh := 0,
    trace := [] }

/-! ### Witnesses -/

/-- Witness for Claim C1: on a concrete site record, the owned-target FK is
replaced by the derived identifier and the pass-through FK by the indexed
record's natural-key descriptor. -/
theorem c1_witness :
    (fkLoop adFix (initLS siteRec 0) siteDescr.fkAssociations).map
        (fun ls => (ls.data.get? "region", ls.data.get? "group"))
      = some (some (netbox_pk_to_nautobot_pk "region" (.int 5)),
              some (Value.obj [("name", .str "ops")])) := by
  cases hfk : fkLoop adFix (initLS siteRec 0) siteDescr.fkAssociations with
  | none =>
    have hs : (fkLoop adFix (initLS siteRec 0) siteDescr.fkAssociations).isSome = true := by rfl
    rw [hfk] at hs
    exact Bool.noConfusion hs
  | some ls' =>
    have h1 := (load_record_single_int_fk adFix siteDescr.fkAssociations "region" "region" 5
      regionDescr (by decide) (by decide) (by decide) (by decide) rfl rfl
      (initLS siteRec 0) ls' rfl hfk).1 rfl
    have h2 := (load_record_single_int_fk adFix siteDescr.fkAssociations "group" "group" 7
      groupDescr (by decide) (by decide) (by decide) (by decide) rfl rfl
      (initLS siteRec 0) ls' rfl hfk).2 rfl groupEntry rfl
    simp only [Option.map_some']
    rw [h1, h2]
    rfl

/-- Witness for Claim C2: the generic FK whose discriminator resolves to
`region` behaves exactly like a static `region` declaration. -/
theorem c2_witness :
    fkStep adFix lsFix ("gfk", "*ct_field") = fkStep adFix lsFix ("gfk", "region") :=
  generic_fk_matches_static adFix lsFix "gfk" "*ct_field" "region" 3 ctEntry3
    rfl rfl rfl rfl (by decide) rfl

/-- Witness for Claim C3: a select custom field with choices `["a","b"]`
yields exactly two synthesized choice records referencing the parent, the
shadowed `required` flag, and no `choices` field. -/
theorem c3_witness :
    (loadRecord adFix [] cfDescr cfRec [] 0).elim False
      (fun out => out.data.get? "actual_required" = some (.bool true)
        ∧ out.data.get? "required" = some (.bool false)
        ∧ out.data.get? "choices" = none
        ∧ out.synthesized.length = 2
        ∧ out.synthesized.map (fun c => Fields.get? c "value")
            = [some (.str "a"), some (.str "b")]) := by
  cases h : loadRecord adFix [] cfDescr cfRec [] 0 with
  | none =>
    have hs : (loadRecord adFix [] cfDescr cfRec [] 0).isSome = true := by rfl
    rw [h] at hs
    exact Bool.noConfusion hs
  | some out =>
    obtain ⟨h1, h2, h3, h4, -, h6, -⟩ := custom_field_select_fixup adFix [] cfDescr cfRec
      [] 0 out (.bool true) "[\"a\", \"b\"]" ["a", "b"] rfl (by decide) rfl rfl rfl rfl h
    exact ⟨h1, h2, h3, h4, h6⟩

/-- Witness for Claim C4: two site records ignoring the same `slug` field
produce at most one drift warning for it but one debug entry each. -/
theorem c4_witness :
    warnMentions "site" "slug" (driftRun ([], []) c4inputs).2 ≤ warnMentions "site" "slug" [] + 1
    ∧ debugCount (driftRun ([], []) c4inputs).2 = debugCount [] + c4inputs.length := by
  have h := drift_tracker_dedup c4inputs "site" "slug" [] [] (by decide) (by decide)
  exact ⟨h.1, h.2.1⟩

/-- Witness for Claim C5 (amended): a run over a concrete dataset releases
the source reference while the pre-existing drift entry survives. -/
theorem c5_witness :
    (load adFix5 stFix5).elim False
      (fun st' => st'.sourceData = none ∧ "asn" ∈ usLookupD st'.us "site") := by
  cases h : load adFix5 stFix5 with
  | none =>
    have hs : (load adFix5 stFix5).isSome = true := by rfl
    rw [h] at hs
    exact Bool.noConfusion hs
  | some st' =>
    obtain ⟨h1, h2⟩ := load_releases_source_keeps_drift adFix5 stFix5 st' h
    exact ⟨h1, h2 "site" (by decide)⟩

/-- Counterexample for Claim C5 as stated: `load` completes on a concrete
run whose drift table was non-empty, and the drift table afterwards still
holds the same entry — it is not discarded at the end of the run. -/
theorem c5_counterexample :
    (load adFix5 stFix5).map OrchSt.us = some [("site", ["asn"])]
    ∧ [("site", ["asn"])] ≠ (([] : UnsupportedMap)) :=
  ⟨rfl, by decide⟩

/-- Witness for Claim C6: the three per-field failure modes at concrete
inputs: non-integer generic-FK discriminator, unknown target class, and a
string-valued raw FK. -/
theorem c6_witness :
    fkStep adFix lsFix ("gfk", "*bad_field")
        = some { lsFix with logs := lsFix.logs ++ [LogEntry.errorInvalidContentTypePk (.str "nope")],
                            data := lsFix.data.set "gfk" .null }
    ∧ fkStep adFix lsFix ("gfk", "nosuchmodel")
        = some { lsFix with logs := lsFix.logs ++ [LogEntry.warnUnknownClass "nosuchmodel"],
                            data := lsFix.data.set "gfk" .null }
    ∧ fkStep adFix lsFix ("strfk", "region")
        = some { lsFix with logs := lsFix.logs ++ [LogEntry.errorInvalidPk (.str "oops")],
                            data := lsFix.data.set "strfk" .null } := by
  obtain ⟨p1, p2, -⟩ := fk_failures_degrade_to_null adFix lsFix "gfk"
  obtain ⟨-, -, p3⟩ := fk_failures_degrade_to_null adFix lsFix "strfk"
  refine ⟨(p1 "*bad_field" (.int 5) (.str "nope") rfl rfl rfl rfl rfl).1, ?_, ?_⟩
  · exact (p2 "nosuchmodel" (.int 5) rfl rfl (by decide) rfl rfl).1
  · exact (p3 "region" (.str "oops") regionDescr rfl rfl (by decide) rfl rfl rfl rfl).1

/-- Witness for Claim C7: with the config record present the payload is
merged; without it, `{}` is attached and a warning logged. -/
theorem c7_witness :
    (loadRecord adFix [userRec, ucRec] userDescr userRec [] 0).map
        (fun o => o.data.get? "config_data") = some (some (.obj [("theme", .str "dark")]))
    ∧ (loadRecord adFix [userRec] userDescr userRec [] 0).elim False
        (fun o => o.data.get? "config_data" = some (.obj [])
          ∧ LogEntry.warnNoUserConfig (.str "alice") 2 ∈ o.logs) := by
  constructor
  · cases h : loadRecord adFix [userRec, ucRec] userDescr userRec [] 0 with
    | none =>
      have hs : (loadRecord adFix [userRec, ucRec] userDescr userRec [] 0).isSome = true := by rfl
      rw [h] at hs
      exact Bool.noConfusion hs
    | some out =>
      have hcfg := (user_config_merge adFix [userRec, ucRec] userDescr userRec [] 0 out
        (.str "alice") rfl rfl (by decide) h).1 ucRec (.obj [("theme", .str "dark")]) rfl rfl
      simp [hcfg]
  · cases h : loadRecord adFix [userRec] userDescr userRec [] 0 with
    | none =>
      have hs : (loadRecord adFix [userRec] userDescr userRec [] 0).isSome = true := by rfl
      rw [h] at hs
      exact Bool.noConfusion hs
    | some out =>
      obtain ⟨hc, hm, -⟩ := (user_config_merge adFix [userRec] userDescr userRec [] 0 out
        (.str "alice") rfl rfl (by decide) h).2 rfl
      exact ⟨hc, hm⟩

/-- Witness for Claim C8: the concrete run processes the catalogs first,
then `site` (own label) and `user` (filtered under `auth.user`). -/
theorem c8_witness :
    (load adFix stFix8).map OrchSt.trace = some [("site", siteRec), ("user", userRec)] := by
  cases h : load adFix stFix8 with
  | none =>
    have hs : (load adFix stFix8).isSome = true := by rfl
    rw [h] at hs
    exact Bool.noConfusion hs
  | some st' =>
    have htr := load_fixed_order_and_labels adFix stFix8 st' [siteRec, userRec, ucRec] h rfl
    simp only [Option.map_some']
    rw [htr]
    rfl

/-- Witness for Claim C9: the concrete site record comes back from
`load_record` unchanged. -/
theorem c9_witness :
    (loadRecord adFix [] siteDescr siteRec [] 0).map LoadOut.record = some siteRec := by
  cases h : loadRecord adFix [] siteDescr siteRec [] 0 with
  | none =>
    have hs : (loadRecord adFix [] siteDescr siteRec [] 0).isSome = true := by rfl
    rw [h] at hs
    exact Bool.noConfusion hs
  | some out =>
    have hrec := (load_record_preserves_source adFix [] siteDescr siteRec [] 0 out h).1
    simp [hrec]

/-- Witness for Claim C10: the `broken` field was degraded to null by an
unknown-target failure and never reaches the drift report. -/
theorem c10_witness :
    (loadRecord adFix [] siteDescr siteRec [] 0).elim False
      (fun out => out.ignored = get_ignored_fields out.data out.inst
        ∧ "broken" ∉ out.ignored) := by
  cases h : loadRecord adFix [] siteDescr siteRec [] 0 with
  | none =>
    have hs : (loadRecord adFix [] siteDescr siteRec [] 0).isSome = true := by rfl
    rw [h] at hs
    exact Bool.noConfusion hs
  | some out =>
    obtain ⟨h1, h2⟩ := drift_over_fixed_up_fields adFix [] siteDescr siteRec [] 0 out
      (by decide) h
    have hb : out.data.get? "broken" = some Value.null := by
      have e : (loadRecord adFix [] siteDescr siteRec [] 0).map
          (fun o => o.data.get? "broken") = some (some Value.null) := by rfl
      rw [h] at e
      simpa using e
    exact ⟨h1, h2 "broken" (Or.inr hb)⟩

end NetboxImporter
